import Mathlib

/-!
# cattywampus: tagged values, bounded stack, owned strings

A shallow embedding of `value.h`, `value.c`, `stack.h`, `stack.c`, `option.h`,
`alloc.c`, `str.h`, `str.c` and `main.c`, followed by theorems about it.

Conventions of the embedding.

* C objects reached through a pointer argument (`Stack *s`) are passed in and
  handed back explicitly.
* A C execution that indexes an array outside its bounds has no defined
  result; the stack operations return `none` for it.
* Operations on the C heap thread a `Heap` value and end in an `Outcome`.
-/

namespace Cattywampus

/-! ## value.h -/

/-- Enumerator `VAL_I32` of `ValueTypeTag` (first enumerator, value 0). -/
def VAL_I32 : Nat := 0

/-- Enumerator `VAL_F32` of `ValueTypeTag` (second enumerator, value 1). -/
def VAL_F32 : Nat := 1

/-- Struct `Value`: the discriminant `type` (a C enum is an integer object, so
it is a number here) and the four bytes shared by the anonymous union
`{ int32_t val_i32; float val_f32; }`, kept as the 32-bit pattern `bits`. -/
structure Value where
  type : Nat
  bits : Nat
deriving DecidableEq, Repr

/-- Conversion of a mathematical integer to the object representation of an
`int32_t` (two's complement, 32 bits). -/
def i32_bits (x : Int) : Nat := (x % 2 ^ 32).toNat

/-- Reading the field `val_i32` of the union: the 32-bit pattern as a signed
integer. -/
def Value.get_i32 (v : Value) : Int :=
  if v.bits % 2 ^ 32 < 2 ^ 31 then (v.bits % 2 ^ 32 : Nat) else (v.bits % 2 ^ 32 : Nat) - 2 ^ 32

/-- Function `val_i32` of value.h: `(Value) { .type = VAL_I32, .val_i32 = x }`. -/
def val_i32 (x : Int) : Value := { type := VAL_I32, bits := i32_bits x }

/-- Function `val_f32` of value.h: `(Value) { .type = VAL_F32, .val_f32 = x }`;
the `float` argument is given by its IEEE-754 binary32 pattern. -/
def val_f32 (x : Nat) : Value := { type := VAL_F32, bits := x % 2 ^ 32 }

/-! ## option.h -/

/-- Struct declared by `DECLARE_OPTION(OptionalValue, Value)`. -/
structure OptionalValue where
  value : Value
  has : Bool
deriving DecidableEq, Repr

/-- Initialiser `SOME(x)`, that is `{ (x), true }`. -/
def SOME (x : Value) : OptionalValue := { value := x, has := true }

/-- Initialiser `NONE`, that is `{ 0 }`: every member zero, so `has` is false
and the value is the all-zero `Value`. -/
def NONE : OptionalValue := { value := { type := 0, bits := 0 }, has := false }

/-! ## stack.h, stack.c -/

/-- Constant `STACK_CAP` of stack.h. -/
def STACK_CAP : Nat := 4096

/-- Struct `Stack`: the array `elements[STACK_CAP]` and the `int64_t height`.
No arithmetic on `height` can wrap before an out-of-bounds index is met, so it
is an unbounded integer here. -/
structure Stack where
  elements : Fin STACK_CAP → Value
  height : Int

/-- Function `stk_init`: `(Stack) { 0 }`. -/
def stk_init : Stack :=
  { elements := fun _ => { type := 0, bits := 0 }, height := 0 }

/-- Function `stk_push`. The result is the returned `bool` and the stack left
behind `*s`; `none` when `elements[s->height++]` is outside the array. -/
def stk_push (s : Stack) (val : Value) : Option (Bool × Stack) :=
  if s.height = STACK_CAP then
    some (false, s)
  else if hb : 0 ≤ s.height ∧ s.height < STACK_CAP then
    some (true,
      { elements := Function.update s.elements ⟨s.height.toNat, by omega⟩ val,
        height := s.height + 1 })
  else
    none

/-- Function `stk_pop`. The result is the returned `OptionalValue` and the
stack left behind `*s`; `none` when `elements[--s->height]` is outside the
array. -/
def stk_pop (s : Stack) : Option (OptionalValue × Stack) :=
  if s.height = 0 then
    some (NONE, s)
  else if hb : 0 ≤ s.height - 1 ∧ s.height - 1 < STACK_CAP then
    some (SOME (s.elements ⟨(s.height - 1).toNat, by omega⟩),
      { elements := s.elements, height := s.height - 1 })
  else
    none

/-- Call `stk_push` once for each value of `vals`, in order, collecting the
returned flags. -/
def push_all : Stack → List Value → Option (List Bool × Stack)
  | s, [] => some ([], s)
  | s, v :: vs =>
    match stk_push s v with
    | none => none
    | some (ok, s1) =>
      match push_all s1 vs with
      | none => none
      | some (oks, s2) => some (ok :: oks, s2)

/-- Call `stk_pop` `n` times, collecting the returned options in order. -/
def pop_n : Stack → Nat → Option (List OptionalValue × Stack)
  | s, 0 => some ([], s)
  | s, n + 1 =>
    match stk_pop s with
    | none => none
    | some (o, s1) =>
      match pop_n s1 n with
      | none => none
      | some (os, s2) => some (o :: os, s2)

/-- The value held by slot `i` of the element array (the all-zero value for
an index outside the array, which no theorem relies on). -/
def Stack.slot (s : Stack) (i : Nat) : Value :=
  if h : i < STACK_CAP then s.elements ⟨i, h⟩ else { type := 0, bits := 0 }

/-- The live elements of a stack, bottom first: slots `0 .. height - 1`. -/
def Stack.live (s : Stack) : List Value :=
  (List.range s.height.toNat).map s.slot

/-! ## The C heap, as seen through `malloc` and `free` -/

/-- A pointer to the first byte of a heap block: 0 is the null pointer and
`k + 1` is the block that the `k`-th successful `malloc` handed out. -/
abbrev Ptr := Nat

/-- The null pointer. -/
def NULL : Ptr := 0

/-- One heap block: whether it is still allocated, and its bytes (`none` is a
byte that was never written, whose value is indeterminate). -/
structure Block where
  live : Bool
  cells : List (Option Nat)
deriving DecidableEq, Repr

/-- The heap: all blocks ever handed out, and the number of bytes that
`malloc` is still able to serve (a request beyond it fails). -/
structure Heap where
  blocks : List Block
  avail : Nat
deriving DecidableEq, Repr

/-- How a call that works on the heap ends: it returns a result and leaves a
heap, or an `assert` fails, or the process leaves through
`exit(EXIT_FAILURE)`, or the execution has no defined behaviour. -/
inductive Outcome (α : Type) where
  | ret (a : α) (h : Heap)
  | assert_fail
  | exit_failure
  | ub
deriving DecidableEq, Repr

/-- Sequencing: run `k` on the result and heap of a call that returned, and
pass every other ending on. -/
def Outcome.and_then {α β : Type} (o : Outcome α) (k : α → Heap → Outcome β) : Outcome β :=
  match o with
  | .ret a h => k a h
  | .assert_fail => .assert_fail
  | .exit_failure => .exit_failure
  | .ub => .ub

/-- The block a pointer designates, if any. -/
def Heap.block (h : Heap) (p : Ptr) : Option Block :=
  if p = NULL then none else h.blocks[p - 1]?

/-- Library function `malloc`: a fresh block of `size` indeterminate bytes, or
the null pointer when the request cannot be served. -/
def malloc (size : Nat) (h : Heap) : Ptr × Heap :=
  if size ≤ h.avail then
    (h.blocks.length + 1,
      { blocks := h.blocks ++ [{ live := true, cells := List.replicate size none }],
        avail := h.avail - size })
  else
    (NULL, h)

/-- Library function `free`: nothing for the null pointer, release of a live
block, and no defined behaviour (`none`) for anything else. -/
def free (p : Ptr) (h : Heap) : Option Heap :=
  if p = NULL then some h
  else
    match h.blocks[p - 1]? with
    | some b =>
      if b.live then
        some { blocks := h.blocks.set (p - 1) { live := false, cells := b.cells },
               avail := h.avail + b.cells.length }
      else none
    | none => none

/-- Store of the bytes `bs` at offsets `off, off + 1, ...` of the block at `p`;
`none` when the block is not live or the bytes do not fit. -/
def Heap.store (h : Heap) (p : Ptr) (off : Nat) (bs : List Nat) : Option Heap :=
  match h.block p with
  | some b =>
    if b.live ∧ off + bs.length ≤ b.cells.length then
      some { blocks := h.blocks.set (p - 1)
               { live := true,
                 cells := b.cells.take off ++ bs.map some ++ b.cells.drop (off + bs.length) },
             avail := h.avail }
    else none
  | none => none

/-- The bytes of a cell list up to the first nul byte, as C reads a string;
`none` if an indeterminate byte or the end of the block comes first. -/
def read_cstr : List (Option Nat) → Option (List Nat)
  | [] => none
  | none :: _ => none
  | some 0 :: _ => some []
  | some (c + 1) :: rest =>
    match read_cstr rest with
    | some t => some ((c + 1) :: t)
    | none => none

/-- The nul-terminated string that starts at the base of the live block `p`. -/
def Heap.cstring (h : Heap) (p : Ptr) : Option (List Nat) :=
  match h.block p with
  | some b => if b.live then read_cstr b.cells else none
  | none => none

/-! ## alloc.c -/

/-- Function `oom`: `exit(EXIT_FAILURE)`. -/
def oom {α : Type} : Outcome α := .exit_failure

/-- Function `mem_alloc`. -/
def mem_alloc (alloc_size : Nat) (h : Heap) : Outcome Ptr :=
  if ¬ (alloc_size > 0) then .assert_fail
  else
    let r := malloc alloc_size h
    if r.1 = NULL then oom
    else .ret r.1 r.2

/-- Function `mem_free`. -/
def mem_free (alloc : Ptr) (h : Heap) : Outcome Unit :=
  match free alloc h with
  | some h1 => .ret () h1
  | none => .ub

/-! ## Number formatting of the C library (`vsnprintf`) -/

/-- Decimal digits of `n` as character codes, most significant first; the
first argument bounds the number of digits and `n + 1` is always enough. -/
def dec_digits : Nat → Nat → List Nat
  | 0, _ => []
  | fuel + 1, n =>
    if n < 10 then [48 + n] else dec_digits fuel (n / 10) ++ [48 + n % 10]

/-- Text produced by the conversion `%ld` for the integer `x`. -/
def fmt_ld (x : Int) : List Nat :=
  if x < 0 then 45 :: dec_digits (x.natAbs + 1) x.natAbs
  else dec_digits (x.natAbs + 1) x.natAbs

/-- A C `double`, by value: a finite number `(-1)^neg * mant * 2^exp`, an
infinity or a NaN. -/
inductive Double where
  | finite (neg : Bool) (mant : Nat) (exp : Int)
  | inf (neg : Bool)
  | nan (neg : Bool)
deriving DecidableEq, Repr

/-- Conversion of a `float`, given by its IEEE-754 binary32 pattern, to
`double`; the conversion is exact. -/
def f32_to_f64 (bits : Nat) : Double :=
  let neg := decide (bits / 2 ^ 31 % 2 = 1)
  let e : Nat := bits / 2 ^ 23 % 256
  let m : Nat := bits % 2 ^ 23
  if e = 255 then (if m = 0 then .inf neg else .nan neg)
  else if e = 0 then .finite neg m (-149)
  else .finite neg (2 ^ 23 + m) ((e : Int) - 150)

/-- The magnitude `mant * 2^exp` times `10^6`, rounded to the nearest integer,
ties to even. -/
def scale_micro (mant : Nat) (exp : Int) : Nat :=
  if 0 ≤ exp then mant * 2 ^ exp.toNat * 10 ^ 6
  else
    let d : Nat := 2 ^ (-exp).toNat
    let q : Nat := mant * 10 ^ 6 / d
    let r : Nat := mant * 10 ^ 6 % d
    if d < 2 * r ∨ (2 * r = d ∧ q % 2 = 1) then q + 1 else q

/-- Text produced by the conversion `%f` (precision 6) for a `double`. -/
def fmt_f : Double → List Nat
  | .nan neg => (if neg then [45] else []) ++ [110, 97, 110]
  | .inf neg => (if neg then [45] else []) ++ [105, 110, 102]
  | .finite neg mant exp =>
    let n : Nat := scale_micro mant exp
    (if neg then [45] else []) ++ dec_digits (n / 10 ^ 6 + 1) (n / 10 ^ 6) ++ [46] ++
      (dec_digits 7 (10 ^ 6 + n % 10 ^ 6)).tail

/-- The format string together with its one variadic argument, for the two
calls that str.c makes: `"%ld"` with a `long` and `"%f"` with a `double`. -/
inductive FmtArgs where
  | ld (x : Int)
  | f (x : Double)
deriving DecidableEq, Repr

/-- Text that `vsnprintf` produces for a format and its argument. -/
def FmtArgs.text : FmtArgs → List Nat
  | .ld x => fmt_ld x
  | .f x => fmt_f x

/-- Library function `vsnprintf(buf, size, format, args)`: returns the length
of the whole text; when `size` is not 0 it stores at most `size - 1` characters
of the text and a terminating nul at `buf`. -/
def vsnprintf (buf : Ptr) (size : Nat) (args : FmtArgs) (h : Heap) : Outcome Int :=
  if size = 0 then .ret (args.text.length : Int) h
  else
    match h.store buf 0 (args.text.take (size - 1) ++ [0]) with
    | some h1 => .ret (args.text.length : Int) h1
    | none => .ub

/-! ## str.h, str.c -/

/-- Struct `StrRef`. -/
structure StrRef where
  bytes : Ptr
  len : Int
deriving DecidableEq, Repr

/-- Struct `Str`. -/
structure Str where
  ref : StrRef
deriving DecidableEq, Repr

/-- Function `str_data` (also reached as `cstr`). -/
def str_data (string : Str) (h : Heap) : Outcome Ptr :=
  if string.ref.bytes = NULL then .assert_fail
  else if ¬ (string.ref.len > 0) then .assert_fail
  else .ret string.ref.bytes h

/-- Function `str_len` (also reached as `slen`). -/
def str_len (string : Str) (h : Heap) : Outcome Int :=
  if ¬ (string.ref.len > 0) then .assert_fail
  else .ret string.ref.len h

/-- Function `str_alloc`. -/
def str_alloc (len : Int) (h : Heap) : Outcome Str :=
  if ¬ (len > 0) then .assert_fail
  else
    (mem_alloc len.toNat h).and_then fun data_buffer h1 =>
      match h1.store data_buffer (len - 1).toNat [0] with
      | some h2 => .ret { ref := { bytes := data_buffer, len := len } } h2
      | none => .ub

/-- Body of `str_free`, returning the final value of its parameter `string`,
which is the function's own copy of the argument. -/
def str_free_body (string : Str) (h : Heap) : Outcome Str :=
  let string1 : Str := { ref := { bytes := string.ref.bytes, len := 0 } }
  (mem_free string1.ref.bytes h).and_then fun _ h1 =>
    .ret { ref := { bytes := NULL, len := string1.ref.len } } h1

/-- Function `str_free`: it returns `void`, and its parameter goes out of
scope with the call. -/
def str_free (string : Str) (h : Heap) : Outcome Unit :=
  (str_free_body string h).and_then fun _ h1 => .ret () h1

/-- Largest value of the C type `int`. -/
def INT_MAX : Int := 2 ^ 31 - 1

/-- Function `str_from_snprintf`, for a format and its argument. -/
def str_from_snprintf (args : FmtArgs) (h : Heap) : Outcome Str :=
  (vsnprintf NULL 0 args h).and_then fun n h1 =>
    if INT_MAX < n + 1 then .ub
    else
      let buf_len_required := n + 1
      (str_alloc buf_len_required h1).and_then fun target h2 =>
        (str_data target h2).and_then fun dst h3 =>
          (str_len target h3).and_then fun size h4 =>
            (vsnprintf dst size.toNat args h4).and_then fun _ h5 =>
              .ret target h5

/-- Function `str_from_i64`. -/
def str_from_i64 (x : Int) (h : Heap) : Outcome Str :=
  str_from_snprintf (.ld x) h

/-- Function `str_from_f64`. -/
def str_from_f64 (x : Double) (h : Heap) : Outcome Str :=
  str_from_snprintf (.f x) h

/-! ## value.c -/

/-- Function `val_to_str`. -/
def val_to_str (val : Value) (h : Heap) : Outcome Str :=
  if val.type = VAL_I32 then str_from_i64 val.get_i32 h
  else if val.type = VAL_F32 then str_from_f64 (f32_to_f64 val.bits) h
  else .assert_fail

/-! ## Decimal numerals, as the specification describes them -/

/-- The number that a string of decimal digit characters denotes. -/
def digits_value (ds : List Nat) : Nat :=
  ds.foldl (fun acc c => acc * 10 + (c - 48)) 0

/-- The digit part of a numeral for `x`: the text without its sign. -/
def numeral_digits (x : Int) (t : List Nat) : List Nat :=
  if x < 0 then t.tail else t

/-- The text `t` is the canonical base-10 representation of `x`: a leading
`-` exactly when `x` is negative, then at least one digit, only digits (so no
`+`), no leading zero except for the single digit `0`, denoting `|x|`. -/
def is_canonical_decimal (x : Int) (t : List Nat) : Prop :=
  (x < 0 → t.head? = some 45) ∧
  numeral_digits x t ≠ [] ∧
  (∀ c ∈ numeral_digits x t, 48 ≤ c ∧ c ≤ 57) ∧
  ((numeral_digits x t).head? = some 48 → numeral_digits x t = [48]) ∧
  digits_value (numeral_digits x t) = x.natAbs

instance (x : Int) (t : List Nat) : Decidable (is_canonical_decimal x t) := by
  unfold is_canonical_decimal
  infer_instance

/-! ## Sequences of stack operations -/

/-- One call on a stack: `stk_push` with a value, or `stk_pop`. -/
inductive StackOp where
  | push (val : Value)
  | pop
deriving DecidableEq, Repr

/-- Apply a sequence of calls to a stack, ignoring the returned values. -/
def run_ops : Stack → List StackOp → Option Stack
  | s, [] => some s
  | s, .push val :: rest =>
    match stk_push s val with
    | none => none
    | some (_, s1) => run_ops s1 rest
  | s, .pop :: rest =>
    match stk_pop s with
    | none => none
    | some (_, s1) => run_ops s1 rest

/-- Index of the array element that `stk_push` writes, `elements[s->height++]`;
`none` when the function rejects and writes nothing. -/
def stk_push_index (s : Stack) : Option Int :=
  if s.height = STACK_CAP then none else some s.height

/-- Index of the array element that `stk_pop` reads, `elements[--s->height]`;
`none` when the function returns `NONE` and reads nothing. -/
def stk_pop_index (s : Stack) : Option Int :=
  if s.height = 0 then none else some (s.height - 1)

/-- The loop `while (1) { opt = stk_pop(&s); if (opt.has) ... else break; }`
of main.c with the work on the popped value left out: the number of times the
`has` branch ran and the stack at the `break`. The outer `none` is fuel
running out, the inner one an out-of-bounds index. -/
def pop_until_empty : Nat → Stack → Option (Option (Nat × Stack))
  | 0, _ => none
  | fuel + 1, s =>
    match stk_pop s with
    | none => some none
    | some (opt, s1) =>
      if opt.has then
        match pop_until_empty fuel s1 with
        | some (some (n, s2)) => some (some (n + 1, s2))
        | some none => some none
        | none => none
      else some (some (0, s1))

/-! ## main.c -/

/-- A call that main.c makes on an owned string: `val_to_str` returned it,
it was passed to `str_data` (as `cstr`), or it was passed to `str_free`. The
last two carry whether the buffer of the string was a live allocation of the
heap at the moment of the call. -/
inductive StrCall where
  | made (s : Str)
  | data (s : Str) (live : Bool)
  | freed (s : Str) (live : Bool)
deriving DecidableEq, Repr

/-- What `main` has done so far: the lines written with `puts`, and the calls
on owned strings in the order they were made. Each entry is added by the call
itself (`call_val_to_str`, `call_str_data`, `call_puts`, `call_str_free`). -/
structure Console where
  lines : List (List Nat)
  calls : List StrCall
deriving DecidableEq, Repr

/-- Library function `puts`: the nul-terminated string at `s` goes to the
standard output as one line; the result here is the text of that line. No
defined behaviour when `s` is not a readable string. -/
def puts (s : Ptr) (h : Heap) : Outcome (List Nat) :=
  match h.cstring s with
  | some t => .ret t h
  | none => .ub

/-- Whether `p` names an allocation of the heap that has not been released. -/
def Heap.is_live (h : Heap) (p : Ptr) : Bool :=
  match h.block p with
  | some b => b.live
  | none => false

/-- The call `val_to_str(val)`, entering the string it returns in the record
of calls. -/
def call_val_to_str (val : Value) (con : Console) (h : Heap) : Outcome (Str × Console) :=
  (val_to_str val h).and_then fun desc h1 =>
    .ret (desc, { lines := con.lines, calls := con.calls ++ [.made desc] }) h1

/-- The call `str_data(s)` (written `cstr(s)` in main.c), entering itself in
the record of calls with the liveness of the buffer in the heap it is called
on. -/
def call_str_data (s : Str) (con : Console) (h : Heap) : Outcome (Ptr × Console) :=
  (str_data s h).and_then fun p h1 =>
    .ret (p, { lines := con.lines,
               calls := con.calls ++ [.data s (h.is_live s.ref.bytes)] }) h1

/-- The call `puts(p)`, entering the line it writes in the console. -/
def call_puts (p : Ptr) (con : Console) (h : Heap) : Outcome Console :=
  (puts p h).and_then fun line h1 =>
    .ret { lines := con.lines ++ [line], calls := con.calls } h1

/-- The call `str_free(s)`, entering itself in the record of calls with the
liveness of the buffer in the heap it is called on. -/
def call_str_free (s : Str) (con : Console) (h : Heap) : Outcome Console :=
  (str_free s h).and_then fun _ h1 =>
    .ret { lines := con.lines,
           calls := con.calls ++ [.freed s (h.is_live s.ref.bytes)] } h1

/-- The `has` branch of the loop of `main`:
`desc = val_to_str(val); puts(cstr(desc)); str_free(desc);`. The console is
only ever changed by the calls. -/
def main_body (val : Value) (con : Console) (h : Heap) : Outcome Console :=
  (call_val_to_str val con h).and_then fun made h1 =>
    (call_str_data made.1 made.2 h1).and_then fun got h2 =>
      (call_puts got.1 got.2 h2).and_then fun con3 h3 =>
        call_str_free made.1 con3 h3

/-- The loop `while (1) { ... }` of `main`; `none` is fuel running out. -/
def main_loop : Nat → Stack → Console → Heap → Option (Outcome Console)
  | 0, _, _, _ => none
  | fuel + 1, s, con, h =>
    match stk_pop s with
    | none => some .ub
    | some (opt, s1) =>
      if opt.has then
        match main_body opt.value con h with
        | .ret con1 h1 => main_loop fuel s1 con1 h1
        | .assert_fail => some .assert_fail
        | .exit_failure => some .exit_failure
        | .ub => some .ub
      else some (.ret con h)

/-- The `float` that the constant `345.75` converts to, as its binary32
pattern `0x43ACE000` (the conversion is exact). -/
def F32_345_75 : Nat := 1135403008

/-- Function `main`: the returned status together with what was written and
called; `none` is fuel running out. -/
def main (fuel : Nat) (h : Heap) : Option (Outcome (Int × Console)) :=
  match stk_push stk_init (val_i32 87) with
  | none => some .ub
  | some (_, s1) =>
    match stk_push s1 (val_i32 (-32)) with
    | none => some .ub
    | some (_, s2) =>
      match stk_push s2 (val_f32 F32_345_75) with
      | none => some .ub
      | some (_, s3) =>
        match main_loop fuel s3 { lines := [], calls := [] } h with
        | none => none
        | some o => some (o.and_then fun con h1 => .ret (0, con) h1)

theorem stk_push_of_lt (s : Stack) (v : Value) (h0 : 0 ≤ s.height)
    (h1 : s.height < STACK_CAP) :
    stk_push s v = some (true,
      { elements := Function.update s.elements ⟨s.height.toNat, by omega⟩ v,
        height := s.height + 1 }) := by
  unfold stk_push
  rw [if_neg (by omega), dif_pos ⟨h0, h1⟩]

theorem stk_push_of_full (s : Stack) (v : Value) (h : s.height = STACK_CAP) :
    stk_push s v = some (false, s) := by
  unfold stk_push
  rw [if_pos h]

theorem stk_pop_of_pos (s : Stack) (h0 : 0 < s.height) (h1 : s.height ≤ STACK_CAP) :
    stk_pop s = some (SOME (s.elements ⟨(s.height - 1).toNat, by omega⟩),
      { elements := s.elements, height := s.height - 1 }) := by
  unfold stk_pop
  rw [if_neg (by omega), dif_pos ⟨by omega, by omega⟩]

theorem stk_pop_of_empty (s : Stack) (h : s.height = 0) : stk_pop s = some (NONE, s) := by
  unfold stk_pop
  rw [if_pos h]

theorem slot_of_lt (s : Stack) (i : Nat) (h : i < STACK_CAP) :
    s.slot i = s.elements ⟨i, h⟩ := by
  unfold Stack.slot
  rw [dif_pos h]

theorem slot_update (e : Fin STACK_CAP → Value) (j : Nat) (hj : j < STACK_CAP) (v : Value)
    (ht : Int) (i : Nat) :
    Stack.slot { elements := Function.update e ⟨j, hj⟩ v, height := ht } i =
      if i = j then v else Stack.slot { elements := e, height := ht } i := by
  unfold Stack.slot
  by_cases hi : i < STACK_CAP
  · simp only [dif_pos hi]
    by_cases hij : i = j
    · subst hij
      simp
    · rw [if_neg hij, Function.update_noteq]
      intro hEq
      exact hij (congrArg Fin.val hEq)
  · have hij : i ≠ j := by omega
    simp only [dif_neg hi, if_neg hij]

/-- Pushing below capacity appends the value to the live elements. -/
theorem live_push (s : Stack) (v : Value) (h0 : 0 ≤ s.height) (h1 : s.height < STACK_CAP) :
    ∃ s1, stk_push s v = some (true, s1) ∧ s1.height = s.height + 1 ∧
      s1.live = s.live ++ [v] := by
  refine ⟨_, stk_push_of_lt s v h0 h1, rfl, ?_⟩
  unfold Stack.live
  have hn : (s.height + 1).toNat = s.height.toNat + 1 := by omega
  simp only [hn, List.range_succ, List.map_append, List.map_cons, List.map_nil]
  congr 1
  · apply List.map_congr_left
    intro i hi
    rw [slot_update]
    have : i ≠ s.height.toNat := by
      have := List.mem_range.mp hi
      omega
    rw [if_neg this]
    rfl
  · rw [slot_update, if_pos rfl]

/-- Popping a non-empty stack returns the last live element and removes it. -/
theorem live_pop (s : Stack) (l : List Value) (v : Value) (h1 : s.height ≤ STACK_CAP)
    (hl : s.live = l ++ [v]) :
    ∃ s1, stk_pop s = some (SOME v, s1) ∧ s1.height = s.height - 1 ∧ s1.live = l ∧
      s1.elements = s.elements := by
  have hlen : s.height.toNat = l.length + 1 := by
    have := congrArg List.length hl
    simpa [Stack.live] using this
  have h0 : 0 < s.height := by omega
  have hn : (s.height - 1).toNat = l.length := by omega
  have hlive : s.live = (List.range l.length).map s.slot ++ [s.slot l.length] := by
    unfold Stack.live
    rw [hlen, List.range_succ, List.map_append]
    rfl
  rw [hl] at hlive
  have hinit := List.append_inj_left hlive (by simp)
  have hlast := List.append_inj_right hlive (by simp)
  have hv : v = s.elements ⟨(s.height - 1).toNat, by omega⟩ := by
    have hv1 : v = s.slot l.length := by simpa using hlast
    rw [hv1, slot_of_lt s l.length (by omega)]
    congr 1
    exact Fin.ext hn.symm
  refine ⟨{ elements := s.elements, height := s.height - 1 }, ?_, rfl, ?_, rfl⟩
  · rw [stk_pop_of_pos s h0 h1, ← hv]
  have hgoal : Stack.live { elements := s.elements, height := s.height - 1 } =
      (List.range l.length).map s.slot := by
    unfold Stack.live
    simp only [hn]
    rfl
  rw [hgoal, ← hinit]

/-- Pushing a list of values that fits appends all of them, every call
returning `true`. -/
theorem push_all_live (vals : List Value) :
    ∀ s : Stack, 0 ≤ s.height → s.height + vals.length ≤ STACK_CAP →
      ∃ s1, push_all s vals = some (List.replicate vals.length true, s1) ∧
        s1.height = s.height + vals.length ∧ s1.live = s.live ++ vals := by
  induction vals with
  | nil =>
    intro s _ _
    exact ⟨s, rfl, by simp, by simp⟩
  | cons v vs ih =>
    intro s h0 hcap
    have hlen : ((v :: vs).length : Int) = (vs.length : Int) + 1 := by
      simp
    obtain ⟨s1, hpush, hh1, hl1⟩ := live_push s v h0 (by omega)
    obtain ⟨s2, hall, hh2, hl2⟩ := ih s1 (by omega) (by omega)
    refine ⟨s2, ?_, by omega, ?_⟩
    · simp only [push_all, hpush, hall, List.length_cons, List.replicate_succ]
    · rw [hl2, hl1, List.append_assoc]
      rfl

/-- Popping as many times as there are values on top returns them last
first, every call with `has = true`, and leaves the element array alone. -/
theorem pop_n_live (vals : List Value) :
    ∀ (s : Stack) (l : List Value), s.height ≤ STACK_CAP → s.live = l ++ vals →
      ∃ s2, pop_n s vals.length = some (vals.reverse.map SOME, s2) ∧
        s2.height = s.height - vals.length ∧ s2.live = l ∧ s2.elements = s.elements := by
  induction vals using List.reverseRecOn with
  | nil =>
    intro s l _ hl
    exact ⟨s, rfl, by simp, by simpa using hl, rfl⟩
  | append_singleton vs v ih =>
    intro s l hcap hl
    rw [← List.append_assoc] at hl
    obtain ⟨s1, hpop, hh1, hl1, he1⟩ := live_pop s (l ++ vs) v hcap hl
    have hlen : s.height.toNat = (l ++ vs).length + 1 := by
      have := congrArg List.length hl
      simpa [Stack.live] using this
    obtain ⟨s2, hrest, hh2, hl2, he2⟩ := ih s1 l (by omega) hl1
    refine ⟨s2, ?_, ?_, hl2, he2.trans he1⟩
    · simp only [List.length_append, List.length_singleton, pop_n, hpop, hrest,
        List.reverse_append, List.reverse_singleton, List.singleton_append, List.map_cons]
    · simp only [List.length_append, List.length_singleton, Nat.cast_add, Nat.cast_one]
      omega

theorem pop_n_of_empty (s : Stack) (h : s.height = 0) (n : Nat) :
    pop_n s n = some (List.replicate n NONE, s) := by
  induction n with
  | zero => rfl
  | succ n ih => simp only [pop_n, stk_pop_of_empty s h, ih, List.replicate_succ]

/-! ### Claims on the bounded stack -/

/-- C1 (LIFO law): on a stack with `0 ≤ height`, pushing values `vals` that
fit below `STACK_CAP` makes every `stk_push` return `true`, and the same number
of `stk_pop` calls then returns the values in reverse order, each with
`has = true`; the height is back where it started. -/
theorem lifo_push_then_pop (s : Stack) (vals : List Value) (h0 : 0 ≤ s.height)
    (hcap : s.height + vals.length ≤ STACK_CAP) :
    ∃ s1 s2, push_all s vals = some (List.replicate vals.length true, s1) ∧
      pop_n s1 vals.length = some (vals.reverse.map SOME, s2) ∧
      (∀ o ∈ vals.reverse.map SOME, o.has = true) ∧
      s2.height = s.height := by
  obtain ⟨s1, hpush, hh1, hl1⟩ := push_all_live vals s h0 hcap
  obtain ⟨s2, hpop, hh2, _, _⟩ := pop_n_live vals s1 s.live (by omega) hl1
  refine ⟨s1, s2, hpush, hpop, ?_, by omega⟩
  intro o ho
  obtain ⟨v, _, rfl⟩ := List.mem_map.mp ho
  rfl

theorem lifo_push_then_pop_witness :
    0 ≤ stk_init.height ∧
    stk_init.height + ([val_i32 87, val_i32 (-32), val_f32 1135403008].length : Int) ≤
      (STACK_CAP : Int) ∧
    ∃ s1 s2,
      push_all stk_init [val_i32 87, val_i32 (-32), val_f32 1135403008] =
        some ([true, true, true], s1) ∧
      pop_n s1 3 =
        some ([SOME (val_f32 1135403008), SOME (val_i32 (-32)), SOME (val_i32 87)], s2) ∧
      (∀ o ∈ [SOME (val_f32 1135403008), SOME (val_i32 (-32)), SOME (val_i32 87)],
        o.has = true) ∧
      s2.height = stk_init.height :=
  ⟨by decide, by decide,
    lifo_push_then_pop stk_init [val_i32 87, val_i32 (-32), val_f32 1135403008]
      (by decide) (by decide)⟩

/-- C2 (overflow rejected atomically): on a stack whose height is `STACK_CAP`,
`stk_push` returns `false` and hands back the very same stack, height and all
element slots untouched. -/
theorem push_full_unchanged (s : Stack) (v : Value) (h : s.height = STACK_CAP) :
    ∃ s1, stk_push s v = some (false, s1) ∧ s1.height = s.height ∧
      (∀ i, s1.elements i = s.elements i) ∧ s1 = s :=
  ⟨s, stk_push_of_full s v h, rfl, fun _ => rfl, rfl⟩

theorem push_full_unchanged_witness :
    (Stack.mk (fun _ => val_i32 5) 4096).height = (STACK_CAP : Int) ∧
    ∃ s1, stk_push { elements := fun _ => val_i32 5, height := 4096 } (val_i32 9) =
        some (false, s1) ∧
      s1.height = 4096 ∧
      (∀ i, s1.elements i = val_i32 5) ∧
      s1 = { elements := fun _ => val_i32 5, height := 4096 } :=
  ⟨by decide,
    push_full_unchanged { elements := fun _ => val_i32 5, height := 4096 } (val_i32 9)
      (by decide)⟩

/-- C3 (capacity law): the capacity is 4096; from `stk_init`, pushing any
4096 values makes every call return `true`, and one more `stk_push` returns
`false` and leaves the height at 4096 (the stack is unchanged). -/
theorem capacity_law (vals : List Value) (hlen : vals.length = STACK_CAP) (v : Value) :
    STACK_CAP = 4096 ∧
    ∃ s1, push_all stk_init vals = some (List.replicate STACK_CAP true, s1) ∧
      stk_push s1 v = some (false, s1) ∧ s1.height = STACK_CAP := by
  obtain ⟨s1, hpush, hh1, _⟩ :=
    push_all_live vals stk_init (le_refl _) (by
      have : stk_init.height = 0 := rfl
      rw [this, hlen]
      simp)
  have hfull : s1.height = STACK_CAP := by
    have : stk_init.height = 0 := rfl
    rw [hh1, this, hlen]
    simp
  rw [hlen] at hpush
  exact ⟨rfl, s1, hpush, stk_push_of_full s1 v hfull, hfull⟩

theorem capacity_law_witness :
    (List.replicate STACK_CAP (val_i32 1)).length = STACK_CAP ∧
    STACK_CAP = 4096 ∧
    ∃ s1, push_all stk_init (List.replicate STACK_CAP (val_i32 1)) =
        some (List.replicate STACK_CAP true, s1) ∧
      stk_push s1 (val_i32 2) = some (false, s1) ∧ s1.height = STACK_CAP :=
  ⟨List.length_replicate _ _,
    capacity_law (List.replicate STACK_CAP (val_i32 1)) (List.length_replicate _ _) (val_i32 2)⟩

/-- C4 (underflow is a no-op): on a stack of height 0, `stk_pop` returns the
empty indicator `NONE` (whose `has` is false) and hands back the very same
stack; any number of further pops keeps doing so. -/
theorem pop_empty_noop (s : Stack) (h : s.height = 0) :
    stk_pop s = some (NONE, s) ∧ NONE.has = false ∧
      ∀ n, pop_n s n = some (List.replicate n NONE, s) :=
  ⟨stk_pop_of_empty s h, rfl, pop_n_of_empty s h⟩

theorem pop_empty_noop_witness :
    stk_init.height = 0 ∧
    stk_pop stk_init = some (NONE, stk_init) ∧ NONE.has = false ∧
      ∀ n, pop_n stk_init n = some (List.replicate n NONE, stk_init) :=
  ⟨rfl, pop_empty_noop stk_init rfl⟩

/-- C5 (successful push): on a stack with `0 ≤ height < STACK_CAP`, `stk_push`
returns `true`; afterwards the slot at the old height holds the pushed value,
the height is one more, and every other slot is as before. -/
theorem push_postcondition (s : Stack) (v : Value) (h0 : 0 ≤ s.height)
    (h1 : s.height < STACK_CAP) :
    ∃ s1, stk_push s v = some (true, s1) ∧
      s1.elements ⟨s.height.toNat, by omega⟩ = v ∧
      s1.height = s.height + 1 ∧
      ∀ i : Fin STACK_CAP, (i.val : Int) ≠ s.height → s1.elements i = s.elements i := by
  refine ⟨_, stk_push_of_lt s v h0 h1, ?_, rfl, ?_⟩
  · simp
  · intro i hi
    apply Function.update_noteq
    intro hEq
    apply hi
    have := congrArg Fin.val hEq
    simp only at this
    omega

theorem push_postcondition_witness :
    0 ≤ stk_init.height ∧ stk_init.height < (STACK_CAP : Int) ∧
    ∃ s1, stk_push stk_init (val_i32 87) = some (true, s1) ∧
      s1.elements ⟨0, by decide⟩ = val_i32 87 ∧
      s1.height = 0 + 1 ∧
      ∀ i : Fin STACK_CAP, (i.val : Int) ≠ 0 → s1.elements i = stk_init.elements i :=
  ⟨by decide, by decide, push_postcondition stk_init (val_i32 87) (by decide) (by decide)⟩

/-- C6 (successful pop): on a stack with `0 < height ≤ STACK_CAP`, `stk_pop`
returns `has = true` with the value `elements[height - 1]`; afterwards the
height is one less and the element array is the same. -/
theorem pop_postcondition (s : Stack) (h0 : 0 < s.height) (h1 : s.height ≤ STACK_CAP) :
    ∃ o s1, stk_pop s = some (o, s1) ∧ o.has = true ∧
      o.value = s.elements ⟨(s.height - 1).toNat, by omega⟩ ∧
      s1.height = s.height - 1 ∧ s1.elements = s.elements :=
  ⟨_, _, stk_pop_of_pos s h0 h1, rfl, rfl, rfl, rfl⟩

theorem pop_postcondition_witness :
    0 < (Stack.mk (fun i => val_i32 i.val) 3).height ∧
    (Stack.mk (fun i => val_i32 i.val) 3).height ≤ (STACK_CAP : Int) ∧
    ∃ o s1, stk_pop { elements := fun i => val_i32 i.val, height := 3 } = some (o, s1) ∧
      o.has = true ∧ o.value = val_i32 2 ∧ s1.height = 3 - 1 ∧
      s1.elements = fun i => val_i32 i.val :=
  ⟨by decide, by decide,
    pop_postcondition { elements := fun i => val_i32 i.val, height := 3 } (by decide)
      (by decide)⟩

/-! ## Theorems: decimal formatting -/

theorem digits_value_snoc (l : List Nat) (c : Nat) :
    digits_value (l ++ [c]) = digits_value l * 10 + (c - 48) := by
  simp [digits_value, List.foldl_append]

theorem dec_digits_small (fuel n : Nat) (h : n < 10) : dec_digits (fuel + 1) n = [48 + n] := by
  unfold dec_digits
  rw [if_pos h]

theorem dec_digits_large (fuel n : Nat) (h : ¬ n < 10) :
    dec_digits (fuel + 1) n = dec_digits fuel (n / 10) ++ [48 + n % 10] := by
  rw [dec_digits, if_neg h]

theorem div_ten_lt_pow (fuel n : Nat) (h : n < 10 ^ (fuel + 1)) : n / 10 < 10 ^ fuel := by
  apply Nat.div_lt_of_lt_mul
  rw [pow_succ] at h
  omega

/-- With enough fuel, `dec_digits` yields a non-empty string of digit
characters without a leading zero (unless the number is 0) that denotes the
number. -/
theorem dec_digits_spec :
    ∀ (fuel n : Nat), n < 10 ^ (fuel + 1) →
      dec_digits (fuel + 1) n ≠ [] ∧
      (∀ c ∈ dec_digits (fuel + 1) n, 48 ≤ c ∧ c ≤ 57) ∧
      ((dec_digits (fuel + 1) n).head? = some 48 → n = 0) ∧
      digits_value (dec_digits (fuel + 1) n) = n := by
  intro fuel
  induction fuel with
  | zero =>
    intro n hn
    have hlt : n < 10 := by simpa using hn
    rw [dec_digits_small 0 n hlt]
    refine ⟨by simp, ?_, ?_, by simp [digits_value]⟩
    · intro c hc
      simp only [List.mem_singleton] at hc
      omega
    · intro hh
      simp only [List.head?_cons, Option.some.injEq] at hh
      omega
  | succ fuel ih =>
    intro n hn
    by_cases hlt : n < 10
    · rw [dec_digits_small _ n hlt]
      refine ⟨by simp, ?_, ?_, by simp [digits_value]⟩
      · intro c hc
        simp only [List.mem_singleton] at hc
        omega
      · intro hh
        simp only [List.head?_cons, Option.some.injEq] at hh
        omega
    · rw [dec_digits_large _ n hlt]
      obtain ⟨hne, hdig, hhead, hval⟩ := ih (n / 10) (div_ten_lt_pow _ n hn)
      refine ⟨by simp, ?_, ?_, ?_⟩
      · intro c hc
        rcases List.mem_append.mp hc with hc | hc
        · exact hdig c hc
        · simp only [List.mem_singleton] at hc
          omega
      · intro hh
        rw [List.head?_append_of_ne_nil _ hne] at hh
        have := hhead hh
        omega
      · rw [digits_value_snoc, hval]
        omega

theorem dec_digits_length_le (fuel n : Nat) : (dec_digits fuel n).length ≤ fuel := by
  induction fuel generalizing n with
  | zero => simp [dec_digits]
  | succ fuel ih =>
    unfold dec_digits
    split
    · simp
    · have := ih (n / 10)
      simp only [List.length_append, List.length_singleton]
      omega

/-- The digits do not depend on the fuel once it is enough. -/
theorem dec_digits_fuel :
    ∀ (f1 f2 n : Nat), n < 10 ^ (f1 + 1) → n < 10 ^ (f2 + 1) →
      dec_digits (f1 + 1) n = dec_digits (f2 + 1) n := by
  intro f1
  induction f1 with
  | zero =>
    intro f2 n h1 _
    have hlt : n < 10 := by simpa using h1
    rw [dec_digits_small 0 n hlt, dec_digits_small f2 n hlt]
  | succ f1 ih =>
    intro f2 n h1 h2
    by_cases hlt : n < 10
    · rw [dec_digits_small _ n hlt, dec_digits_small _ n hlt]
    · cases f2 with
      | zero =>
        exfalso
        apply hlt
        simpa using h2
      | succ f2 =>
        rw [dec_digits_large _ n hlt, dec_digits_large _ n hlt,
          ih f2 (n / 10) (div_ten_lt_pow _ n h1) (div_ten_lt_pow _ n h2)]

theorem lt_ten_pow_succ (n : Nat) : n < 10 ^ (n + 1) := by
  have h1 : n < 10 ^ n := Nat.lt_pow_self (by decide) n
  have h2 : 10 ^ n ≤ 10 ^ (n + 1) := Nat.pow_le_pow_right (by decide) (Nat.le_succ n)
  omega

theorem foldl_digit_pos (rest : List Nat) :
    ∀ acc : Nat, 1 ≤ acc → 1 ≤ rest.foldl (fun a c => a * 10 + (c - 48)) acc := by
  induction rest with
  | nil => intro acc h; simpa using h
  | cons c rest ih =>
    intro acc h
    simp only [List.foldl_cons]
    apply ih
    omega

/-- A digit string whose first digit is not `0` denotes a positive number. -/
theorem digits_value_pos (ds : List Nat) (hne : ds ≠ [])
    (hdig : ∀ c ∈ ds, 48 ≤ c ∧ c ≤ 57) (hhead : ds.head? ≠ some 48) :
    1 ≤ digits_value ds := by
  cases ds with
  | nil => exact absurd rfl hne
  | cons c rest =>
    have hc := hdig c (List.mem_cons_self c rest)
    have hc48 : c ≠ 48 := by
      intro h
      apply hhead
      simp [h]
    unfold digits_value
    simp only [List.foldl_cons]
    apply foldl_digit_pos
    omega

/-- A digit string without a superfluous leading zero is the one that
`dec_digits` produces for the number it denotes. -/
theorem canonical_digits_unique (ds : List Nat) :
    ds ≠ [] → (∀ c ∈ ds, 48 ≤ c ∧ c ≤ 57) → (ds.head? = some 48 → ds = [48]) →
      ds = dec_digits (digits_value ds + 1) (digits_value ds) := by
  induction ds using List.reverseRecOn with
  | nil => intro h; exact absurd rfl h
  | append_singleton init c ih =>
    intro _ hdig hhead
    have hc := hdig c (by simp)
    by_cases hinit : init = []
    · subst hinit
      have hv : digits_value ([] ++ [c]) = c - 48 := by simp [digits_value]
      rw [hv, dec_digits_small _ _ (by omega)]
      simp only [List.nil_append, List.cons.injEq, and_true]
      omega
    · have hhead_init : init.head? ≠ some 48 := by
        intro h
        have h1 := hhead (by rw [List.head?_append_of_ne_nil _ hinit]; exact h)
        have h2 := congrArg List.length h1
        simp only [List.length_append, List.length_singleton] at h2
        have : init.length ≠ 0 := fun h0 => hinit (List.length_eq_zero.mp h0)
        omega
      have hdig_init : ∀ d ∈ init, 48 ≤ d ∧ d ≤ 57 := fun d hd =>
        hdig d (List.mem_append_left _ hd)
      have hrec := ih hinit hdig_init (fun h => absurd h hhead_init)
      have hpos := digits_value_pos init hinit hdig_init hhead_init
      rw [digits_value_snoc]
      have hge : ¬ digits_value init * 10 + (c - 48) < 10 := by omega
      rw [dec_digits_large _ _ hge]
      have hdiv : (digits_value init * 10 + (c - 48)) / 10 = digits_value init := by omega
      have hmod : 48 + (digits_value init * 10 + (c - 48)) % 10 = c := by omega
      rw [hdiv, hmod]
      obtain ⟨k, hk⟩ : ∃ k, digits_value init * 10 + (c - 48) = k + 1 :=
        ⟨digits_value init * 10 + (c - 48) - 1, by omega⟩
      have hk1 : digits_value init < 10 ^ (k + 1) := by
        have h1 := lt_ten_pow_succ (digits_value init)
        have h2 : 10 ^ (digits_value init + 1) ≤ 10 ^ (k + 1) :=
          Nat.pow_le_pow_right (by decide) (by omega)
        omega
      rw [hk, dec_digits_fuel k (digits_value init) (digits_value init) hk1
        (lt_ten_pow_succ _), ← hrec]

/-- The text of `%ld` is a canonical base-10 representation. -/
theorem fmt_ld_canonical (x : Int) : is_canonical_decimal x (fmt_ld x) := by
  obtain ⟨hne, hdig, hhead, hval⟩ := dec_digits_spec x.natAbs x.natAbs (lt_ten_pow_succ _)
  unfold is_canonical_decimal numeral_digits fmt_ld
  by_cases hx : x < 0
  · simp only [if_pos hx, List.tail_cons, List.head?_cons, implies_true, true_and]
    refine ⟨hne, hdig, ?_, hval⟩
    intro h
    have := hhead h
    omega
  · simp only [if_neg hx]
    refine ⟨fun h => absurd h hx, hne, hdig, ?_, hval⟩
    intro h
    have h0 := hhead h
    rw [h0]
    rfl

/-- The canonical base-10 representation is unique: it is the text of `%ld`. -/
theorem canonical_decimal_unique (x : Int) (t : List Nat) (h : is_canonical_decimal x t) :
    t = fmt_ld x := by
  obtain ⟨hsign, hne, hdig, hhead, hval⟩ := h
  have hds := canonical_digits_unique _ hne hdig hhead
  rw [hval] at hds
  unfold fmt_ld
  unfold numeral_digits at hds
  by_cases hx : x < 0
  · rw [if_pos hx] at hds ⊢
    cases t with
    | nil => simp at hsign; exact absurd hx (by omega)
    | cons c rest =>
      have hc := hsign hx
      simp only [List.head?_cons, Option.some.injEq] at hc
      simp only [List.tail_cons] at hds
      rw [hc, ← hds]
  · rw [if_neg hx] at hds ⊢
    exact hds

theorem fmt_ld_no_nul (x : Int) : ∀ c ∈ fmt_ld x, c ≠ 0 := by
  obtain ⟨_, hdig, _, _⟩ := dec_digits_spec x.natAbs x.natAbs (lt_ten_pow_succ _)
  intro c hc
  unfold fmt_ld at hc
  split at hc
  · rcases List.mem_cons.mp hc with h | h
    · omega
    · have := hdig c h
      omega
  · have := hdig c hc
    omega

theorem fmt_ld_length_pos (x : Int) : 1 ≤ (fmt_ld x).length := by
  obtain ⟨hne, _, _, _⟩ := dec_digits_spec x.natAbs x.natAbs (lt_ten_pow_succ _)
  have : (dec_digits (x.natAbs + 1) x.natAbs).length ≠ 0 :=
    fun h0 => hne (List.length_eq_zero.mp h0)
  unfold fmt_ld
  split
  · simp
  · omega

/-- A 64-bit signed integer takes at most 20 characters. -/
theorem fmt_ld_length_i64 (x : Int) (hlo : -2 ^ 63 ≤ x) (hhi : x < 2 ^ 63) :
    (fmt_ld x).length ≤ 20 := by
  have hn : x.natAbs < 10 ^ (18 + 1) := by omega
  have hfuel := dec_digits_fuel x.natAbs 18 x.natAbs (lt_ten_pow_succ _) hn
  have hlen := dec_digits_length_le (18 + 1) x.natAbs
  unfold fmt_ld
  rw [hfuel]
  split
  · simp only [List.length_cons]
    omega
  · omega

/-- A 32-bit signed integer takes at most 11 characters. -/
theorem fmt_ld_length_i32 (x : Int) (hlo : -2 ^ 31 ≤ x) (hhi : x < 2 ^ 31) :
    (fmt_ld x).length ≤ 11 := by
  have hn : x.natAbs < 10 ^ (9 + 1) := by omega
  have hfuel := dec_digits_fuel x.natAbs 9 x.natAbs (lt_ten_pow_succ _) hn
  have hlen := dec_digits_length_le (9 + 1) x.natAbs
  unfold fmt_ld
  rw [hfuel]
  split
  · simp only [List.length_cons]
    omega
  · omega

/-- The specification's predicate on sample texts: `-32` and `0` are
canonical; `07`, `+7`, `-0`, the empty text and `7` for the number 8 are not. -/
theorem canonical_decimal_samples :
    is_canonical_decimal (-32) [45, 51, 50] ∧
    is_canonical_decimal 0 [48] ∧
    ¬ is_canonical_decimal 7 [48, 55] ∧
    ¬ is_canonical_decimal 7 [43, 55] ∧
    ¬ is_canonical_decimal 0 [45, 48] ∧
    ¬ is_canonical_decimal 0 [] ∧
    ¬ is_canonical_decimal 8 [55] := by
  decide

/-- The formatting models on the three values of the demonstration: `87`,
`-32` and the `float` 345.75 (pattern `0x43ACE000`) give the texts `87`, `-32`
and `345.750000`. -/
theorem fmt_samples :
    fmt_ld 87 = [56, 55] ∧
    fmt_ld (-32) = [45, 51, 50] ∧
    fmt_f (f32_to_f64 1135403008) = [51, 52, 53, 46, 55, 53, 48, 48, 48, 48] := by
  decide

/-! ## Theorems: heap and owned strings -/

theorem malloc_fits (size : Nat) (h : Heap) (hfit : size ≤ h.avail) :
    malloc size h =
      (h.blocks.length + 1,
        { blocks := h.blocks ++ [{ live := true, cells := List.replicate size none }],
          avail := h.avail - size }) := by
  unfold malloc
  rw [if_pos hfit]

theorem malloc_exhausted (size : Nat) (h : Heap) (hbig : h.avail < size) :
    malloc size h = (NULL, h) := by
  unfold malloc
  rw [if_neg (by omega)]

theorem mem_alloc_fits (size : Nat) (h : Heap) (hpos : 0 < size) (hfit : size ≤ h.avail) :
    mem_alloc size h =
      .ret (h.blocks.length + 1)
        { blocks := h.blocks ++ [{ live := true, cells := List.replicate size none }],
          avail := h.avail - size } := by
  unfold mem_alloc
  rw [if_neg (by omega), malloc_fits size h hfit]
  simp [NULL]

theorem mem_alloc_exhausted (size : Nat) (h : Heap) (hpos : 0 < size) (hbig : h.avail < size) :
    mem_alloc size h = .exit_failure := by
  unfold mem_alloc
  rw [if_neg (by omega), malloc_exhausted size h hbig]
  simp [oom]

theorem block_last (bs : List Block) (b : Block) (a : Nat) :
    Heap.block { blocks := bs ++ [b], avail := a } (bs.length + 1) = some b := by
  unfold Heap.block
  simp [NULL]

theorem store_last (bs : List Block) (b : Block) (a off : Nat) (l : List Nat)
    (hlive : b.live = true) (hfit : off + l.length ≤ b.cells.length) :
    Heap.store { blocks := bs ++ [b], avail := a } (bs.length + 1) off l =
      some { blocks := bs ++ [{ live := true,
                                cells := b.cells.take off ++ l.map some ++
                                  b.cells.drop (off + l.length) }],
             avail := a } := by
  unfold Heap.store
  rw [block_last]
  simp [hlive, hfit]

theorem str_alloc_fits (len : Int) (h : Heap) (hpos : 0 < len) (hfit : len.toNat ≤ h.avail) :
    str_alloc len h =
      .ret { ref := { bytes := h.blocks.length + 1, len := len } }
        { blocks := h.blocks ++
            [{ live := true, cells := List.replicate (len.toNat - 1) none ++ [some 0] }],
          avail := h.avail - len.toNat } := by
  unfold str_alloc
  rw [if_neg (by omega), mem_alloc_fits len.toNat h (by omega) hfit]
  simp only [Outcome.and_then]
  have hoff : (len - 1).toNat = len.toNat - 1 := by omega
  rw [hoff, store_last _ _ _ _ _ rfl (by simp; omega)]
  have h1 : len.toNat - 1 + 1 = len.toNat := by omega
  simp [h1, List.take_replicate]

theorem str_alloc_exhausted (len : Int) (h : Heap) (hpos : 0 < len)
    (hbig : h.avail < len.toNat) :
    str_alloc len h = .exit_failure := by
  unfold str_alloc
  rw [if_neg (by omega), mem_alloc_exhausted len.toNat h (by omega) hbig]
  rfl

theorem read_cstr_text (t : List Nat) (rest : List (Option Nat)) (hnz : ∀ c ∈ t, c ≠ 0) :
    read_cstr (t.map some ++ some 0 :: rest) = some t := by
  induction t with
  | nil => simp [read_cstr]
  | cons c t ih =>
    have hc : c ≠ 0 := hnz c (List.mem_cons_self c t)
    obtain ⟨k, rfl⟩ : ∃ k, c = k + 1 := ⟨c - 1, by omega⟩
    have ht := ih (fun d hd => hnz d (List.mem_cons_of_mem _ hd))
    show read_cstr (some (k + 1) :: (t.map some ++ some 0 :: rest)) = some ((k + 1) :: t)
    rw [read_cstr, ht]

/-- The measure, allocate and write passes of `str_from_snprintf`, when the
allocator can serve the request: the result is a fresh block holding exactly
the text and a nul. -/
theorem str_from_snprintf_fits (args : FmtArgs) (h : Heap)
    (hint : (args.text.length : Int) + 1 ≤ INT_MAX)
    (hfit : args.text.length + 1 ≤ h.avail) :
    str_from_snprintf args h =
      .ret { ref := { bytes := h.blocks.length + 1, len := (args.text.length : Int) + 1 } }
        { blocks := h.blocks ++
            [{ live := true, cells := args.text.map some ++ [some 0] }],
          avail := h.avail - (args.text.length + 1) } := by
  have htn : ((args.text.length : Int) + 1).toNat = args.text.length + 1 := by omega
  unfold str_from_snprintf
  simp only [vsnprintf, if_true, Outcome.and_then]
  rw [if_neg (by omega), str_alloc_fits _ h (by omega) (by rw [htn]; exact hfit)]
  have hpos : (args.text.length : Int) + 1 > 0 := by omega
  simp only [str_data, str_len, NULL, Outcome.and_then, htn, hpos, not_true_eq_false,
    if_false, Nat.add_one_ne_zero, Nat.add_sub_cancel, List.take_length]
  rw [store_last _ _ _ _ _ rfl (by simp)]
  simp

theorem get_i32_val_i32 (x : Int) (hlo : -2 ^ 31 ≤ x) (hhi : x < 2 ^ 31) :
    (val_i32 x).get_i32 = x := by
  unfold val_i32 Value.get_i32 i32_bits
  simp only
  split <;> omega

theorem cstring_last (bs : List Block) (a : Nat) (t : List Nat) (hnz : ∀ c ∈ t, c ≠ 0) :
    Heap.cstring { blocks := bs ++ [{ live := true, cells := t.map some ++ [some 0] }],
                   avail := a } (bs.length + 1) = some t := by
  unfold Heap.cstring
  rw [block_last]
  simp only [if_true]
  exact read_cstr_text t [] hnz

/-! ### Claims on values and owned strings -/

/-- C7 (integer rendering): for every 32-bit signed `x`, the payload read back
from `val_i32 x` is `x` itself, `val_to_str` formats it through
`str_from_i64`, and (the allocator serving the request) the nul-terminated text
of the returned string is the canonical base-10 representation of `x`, which
is unique. -/
theorem int32_rendering (x : Int) (hlo : -2 ^ 31 ≤ x) (hhi : x < 2 ^ 31) (h : Heap)
    (hfit : (fmt_ld x).length + 1 ≤ h.avail) :
    (val_i32 x).get_i32 = x ∧
    val_to_str (val_i32 x) h = str_from_i64 x h ∧
    ∃ s h1 t, val_to_str (val_i32 x) h = .ret s h1 ∧
      h1.cstring s.ref.bytes = some t ∧
      is_canonical_decimal x t ∧
      ∀ u, is_canonical_decimal x u → u = t := by
  have hget := get_i32_val_i32 x hlo hhi
  have hto : val_to_str (val_i32 x) h = str_from_i64 x h := by
    have htag : (val_i32 x).type = VAL_I32 := rfl
    unfold val_to_str
    rw [if_pos htag, hget]
  have hlen := fmt_ld_length_i32 x hlo hhi
  have hint : ((FmtArgs.ld x).text.length : Int) + 1 ≤ INT_MAX := by
    have : (FmtArgs.ld x).text = fmt_ld x := rfl
    rw [this]
    unfold INT_MAX
    omega
  have hrun := str_from_snprintf_fits (.ld x) h hint hfit
  have htext : (FmtArgs.ld x).text = fmt_ld x := rfl
  rw [htext] at hrun
  exact ⟨hget, hto, _, _, fmt_ld x, hto.trans hrun, cstring_last _ _ _ (fmt_ld_no_nul x),
    fmt_ld_canonical x, canonical_decimal_unique x⟩

theorem int32_rendering_witness :
    (-2 ^ 31 : Int) ≤ -2147483648 ∧ (-2147483648 : Int) < 2 ^ 31 ∧
    (fmt_ld (-2147483648)).length + 1 ≤ (Heap.mk [] 64).avail ∧
    (val_i32 (-2147483648)).get_i32 = -2147483648 ∧
    val_to_str (val_i32 (-2147483648)) { blocks := [], avail := 64 } =
      str_from_i64 (-2147483648) { blocks := [], avail := 64 } ∧
    ∃ s h1 t, val_to_str (val_i32 (-2147483648)) { blocks := [], avail := 64 } = .ret s h1 ∧
      h1.cstring s.ref.bytes = some t ∧
      is_canonical_decimal (-2147483648) t ∧
      ∀ u, is_canonical_decimal (-2147483648) u → u = t :=
  ⟨by decide, by decide, by decide,
    int32_rendering (-2147483648) (by decide) (by decide) { blocks := [], avail := 64 }
      (by decide)⟩

/-- C8, the code at the failing input: `str_free` writes the dead state into
its own copy of the argument (the body ends with `bytes = NULL`, `len = 0`),
so the handle the caller still holds is unchanged; after `str_free(s)` both
`str_len(s)` and `str_data(s)` pass their assertions and return, although the
block is no longer live. -/
theorem str_free_keeps_caller_handle :
    (str_alloc 2 { blocks := [], avail := 16 }).and_then (fun s h => str_free_body s h) =
      .ret { ref := { bytes := NULL, len := 0 } }
        { blocks := [{ live := false, cells := [none, some 0] }], avail := 16 } ∧
    (str_alloc 2 { blocks := [], avail := 16 }).and_then
        (fun s h => (str_free s h).and_then fun _ h1 => str_len s h1) =
      .ret 2 { blocks := [{ live := false, cells := [none, some 0] }], avail := 16 } ∧
    (str_alloc 2 { blocks := [], avail := 16 }).and_then
        (fun s h => (str_free s h).and_then fun _ h1 => str_data s h1) =
      .ret 1 { blocks := [{ live := false, cells := [none, some 0] }], avail := 16 } := by
  decide

/-- C9 (exact-fit formatting): for every 64-bit signed `x`, the allocator
serving the request, `str_from_i64 x` returns an alive string (`str_data`
passes its assertions) whose `str_len` is the length of the `%ld` text plus
one; its block holds exactly that text, no byte of which is nul, followed by
the nul at index `len - 1`, so reading it as a nul-terminated string gives the
text. -/
theorem str_from_i64_exact_fit (x : Int) (hlo : -2 ^ 63 ≤ x) (hhi : x < 2 ^ 63) (h : Heap)
    (hfit : (fmt_ld x).length + 1 ≤ h.avail) :
    ∃ s h1 b, str_from_i64 x h = .ret s h1 ∧
      str_data s h1 = .ret s.ref.bytes h1 ∧
      str_len s h1 = .ret ((fmt_ld x).length + 1 : Int) h1 ∧
      h1.block s.ref.bytes = some b ∧ b.live = true ∧
      b.cells = (fmt_ld x).map some ++ [some 0] ∧
      (∀ c ∈ fmt_ld x, c ≠ 0) ∧
      h1.cstring s.ref.bytes = some (fmt_ld x) := by
  have hlen := fmt_ld_length_i64 x hlo hhi
  have hint : ((FmtArgs.ld x).text.length : Int) + 1 ≤ INT_MAX := by
    have : (FmtArgs.ld x).text = fmt_ld x := rfl
    rw [this]
    unfold INT_MAX
    omega
  have hrun := str_from_snprintf_fits (.ld x) h hint hfit
  have htext : (FmtArgs.ld x).text = fmt_ld x := rfl
  rw [htext] at hrun
  have hpos : ((fmt_ld x).length : Int) + 1 > 0 := by omega
  refine ⟨_, _, _, hrun, ?_, ?_, block_last _ _ _, rfl, rfl, fmt_ld_no_nul x,
    cstring_last _ _ _ (fmt_ld_no_nul x)⟩
  · simp [str_data, NULL, hpos]
  · simp [str_len, hpos]

theorem str_from_i64_exact_fit_witness :
    (-2 ^ 63 : Int) ≤ -9223372036854775808 ∧ (-9223372036854775808 : Int) < 2 ^ 63 ∧
    (fmt_ld (-9223372036854775808)).length + 1 ≤ (Heap.mk [] 64).avail ∧
    ∃ s h1 b, str_from_i64 (-9223372036854775808) { blocks := [], avail := 64 } = .ret s h1 ∧
      str_data s h1 = .ret s.ref.bytes h1 ∧
      str_len s h1 = .ret ((fmt_ld (-9223372036854775808)).length + 1 : Int) h1 ∧
      h1.block s.ref.bytes = some b ∧ b.live = true ∧
      b.cells = (fmt_ld (-9223372036854775808)).map some ++ [some 0] ∧
      (∀ c ∈ fmt_ld (-9223372036854775808), c ≠ 0) ∧
      h1.cstring s.ref.bytes = some (fmt_ld (-9223372036854775808)) :=
  ⟨by decide, by decide, by decide,
    str_from_i64_exact_fit (-9223372036854775808) (by decide) (by decide)
      { blocks := [], avail := 64 } (by decide)⟩

/-- C10 (`str_alloc` yields an alive string): for every `len > 0`, when the
allocator serves `len` bytes `str_alloc` returns a string with a non-null
buffer, for which `str_len` returns exactly `len` and `str_data` passes its
assertions, whose live block has `len` bytes with the nul at index `len - 1`;
when the allocator cannot serve them the process leaves through
`exit(EXIT_FAILURE)` inside `mem_alloc` and nothing is returned. -/
theorem str_alloc_alive (len : Int) (hpos : 0 < len) (h : Heap) :
    (len.toNat ≤ h.avail →
      ∃ s h1 b, str_alloc len h = .ret s h1 ∧
        s.ref.bytes ≠ NULL ∧
        str_len s h1 = .ret len h1 ∧
        str_data s h1 = .ret s.ref.bytes h1 ∧
        h1.block s.ref.bytes = some b ∧ b.live = true ∧
        b.cells.length = len.toNat ∧
        b.cells[(len - 1).toNat]? = some (some 0)) ∧
    (h.avail < len.toNat → str_alloc len h = .exit_failure) := by
  refine ⟨fun hfit => ?_, str_alloc_exhausted len h hpos⟩
  refine ⟨_, _, _, str_alloc_fits len h hpos hfit, ?_, ?_, ?_, block_last _ _ _, rfl, ?_, ?_⟩
  · simp [NULL]
  · simp [str_len, hpos]
  · simp [str_data, NULL, hpos]
  · simp only [List.length_append, List.length_replicate, List.length_singleton]
    omega
  · have hoff : (len - 1).toNat = len.toNat - 1 := by omega
    rw [hoff]
    simp

theorem str_alloc_alive_witness :
    (0 : Int) < 3 ∧ (3 : Int).toNat ≤ (Heap.mk [] 8).avail ∧
    ∃ s h1 b, str_alloc 3 { blocks := [], avail := 8 } = .ret s h1 ∧
      s.ref.bytes ≠ NULL ∧
      str_len s h1 = .ret 3 h1 ∧
      str_data s h1 = .ret s.ref.bytes h1 ∧
      h1.block s.ref.bytes = some b ∧ b.live = true ∧
      b.cells.length = 3 ∧
      b.cells[2]? = some (some 0) :=
  ⟨by decide, by decide,
    (str_alloc_alive 3 (by decide) { blocks := [], avail := 8 }).1 (by decide)⟩

/-! ## Theorems: height invariant, draining, round trip, bounds -/

theorem height_after_push (s : Stack) (v : Value) (h0 : 0 ≤ s.height)
    (h1 : s.height ≤ STACK_CAP) :
    ∃ b s1, stk_push s v = some (b, s1) ∧ 0 ≤ s1.height ∧ s1.height ≤ STACK_CAP := by
  by_cases hfull : s.height = STACK_CAP
  · exact ⟨false, s, stk_push_of_full s v hfull, h0, h1⟩
  · have hlt : s.height < STACK_CAP := by omega
    refine ⟨true, _, stk_push_of_lt s v h0 hlt, ?_, ?_⟩
    · show 0 ≤ s.height + 1
      omega
    · show s.height + 1 ≤ STACK_CAP
      omega

theorem height_after_pop (s : Stack) (h0 : 0 ≤ s.height) (h1 : s.height ≤ STACK_CAP) :
    ∃ o s1, stk_pop s = some (o, s1) ∧ 0 ≤ s1.height ∧ s1.height ≤ STACK_CAP := by
  by_cases hempty : s.height = 0
  · exact ⟨NONE, s, stk_pop_of_empty s hempty, h0, h1⟩
  · have hpos : 0 < s.height := by omega
    refine ⟨_, _, stk_pop_of_pos s hpos h1, ?_, ?_⟩
    · show 0 ≤ s.height - 1
      omega
    · show s.height - 1 ≤ STACK_CAP
      omega

/-- Any sequence of pushes and pops keeps the height within `0 .. STACK_CAP`
and never leaves the array. -/
theorem run_ops_height (ops : List StackOp) :
    ∀ s : Stack, 0 ≤ s.height → s.height ≤ STACK_CAP →
      ∃ s2, run_ops s ops = some s2 ∧ 0 ≤ s2.height ∧ s2.height ≤ STACK_CAP := by
  induction ops with
  | nil =>
    intro s h0 h1
    exact ⟨s, rfl, h0, h1⟩
  | cons op rest ih =>
    intro s h0 h1
    cases op with
    | push v =>
      obtain ⟨b, s1, hpush, g0, g1⟩ := height_after_push s v h0 h1
      obtain ⟨s2, hrun, k0, k1⟩ := ih s1 g0 g1
      exact ⟨s2, by simp only [run_ops, hpush, hrun], k0, k1⟩
    | pop =>
      obtain ⟨o, s1, hpop, g0, g1⟩ := height_after_pop s h0 h1
      obtain ⟨s2, hrun, k0, k1⟩ := ih s1 g0 g1
      exact ⟨s2, by simp only [run_ops, hpop, hrun], k0, k1⟩

/-- Popping a stack of height `n` exactly `n` times gives `n` values, and
the loop that pops until the empty indicator runs its body `n` times. -/
theorem drain_steps (n : Nat) :
    ∀ s : Stack, s.height = n → s.height ≤ STACK_CAP →
      ∃ os s1, pop_n s n = some (os, s1) ∧ os.length = n ∧ (∀ o ∈ os, o.has = true) ∧
        s1.height = 0 ∧ s1.elements = s.elements ∧
        pop_n s (n + 1) = some (os ++ [NONE], s1) ∧
        ∀ fuel, n < fuel → pop_until_empty fuel s = some (some (n, s1)) := by
  induction n with
  | zero =>
    intro s hh _
    have hempty : s.height = 0 := by simpa using hh
    have hpop := stk_pop_of_empty s hempty
    refine ⟨[], s, rfl, rfl, by simp, hempty, rfl, ?_, ?_⟩
    · simp only [pop_n, hpop, List.nil_append]
    · intro fuel hf
      obtain ⟨k, rfl⟩ : ∃ k, fuel = k + 1 := ⟨fuel - 1, by omega⟩
      simp only [pop_until_empty, hpop]
      rfl
  | succ n ih =>
    intro s hh hcap
    have hh1 : s.height = (n : Int) + 1 := by simpa using hh
    obtain ⟨e, hpop⟩ : ∃ e, stk_pop s =
        some (SOME e, { elements := s.elements, height := s.height - 1 }) :=
      ⟨_, stk_pop_of_pos s (by omega) hcap⟩
    obtain ⟨os, s1, hrest, hlen, hhas, hz, hel, hmore, hloop⟩ :=
      ih { elements := s.elements, height := s.height - 1 }
        (by show s.height - 1 = (n : Int); omega)
        (by show s.height - 1 ≤ (STACK_CAP : Int); omega)
    refine ⟨SOME e :: os, s1, ?_, by simp [hlen], ?_, hz, hel, ?_, ?_⟩
    · simp only [pop_n, hpop, hrest]
    · intro o ho
      rcases List.mem_cons.mp ho with h | h
      · rw [h]
        rfl
      · exact hhas o h
    · rw [pop_n]
      simp only [hpop, hmore, List.cons_append]
    · intro fuel hf
      obtain ⟨k, rfl⟩ : ∃ k, fuel = k + 1 := ⟨fuel - 1, by omega⟩
      have hk := hloop k (by omega)
      simp only [pop_until_empty, hpop, hk]
      rfl

/-! ### Claims on invariants of the bounded stack -/

/-- C13 (height invariant): `stk_init` has height 0; on a stack with
`0 ≤ height ≤ STACK_CAP` both `stk_push` (any value) and `stk_pop` return and
leave a height within `0 .. STACK_CAP`; hence every sequence of pushes and
pops from `stk_init` ends in a stack with `0 ≤ height ≤ STACK_CAP`. -/
theorem height_invariant (s : Stack) (h0 : 0 ≤ s.height) (h1 : s.height ≤ STACK_CAP)
    (v : Value) (ops : List StackOp) :
    stk_init.height = 0 ∧
    (∃ b s1, stk_push s v = some (b, s1) ∧ 0 ≤ s1.height ∧ s1.height ≤ STACK_CAP) ∧
    (∃ o s1, stk_pop s = some (o, s1) ∧ 0 ≤ s1.height ∧ s1.height ≤ STACK_CAP) ∧
    (∃ s2, run_ops stk_init ops = some s2 ∧ 0 ≤ s2.height ∧ s2.height ≤ STACK_CAP) :=
  ⟨rfl, height_after_push s v h0 h1, height_after_pop s h0 h1,
    run_ops_height ops stk_init (le_refl _) (by decide)⟩

theorem height_invariant_witness :
    0 ≤ (Stack.mk (fun _ => val_i32 5) 4096).height ∧
    (Stack.mk (fun _ => val_i32 5) 4096).height ≤ (STACK_CAP : Int) ∧
    stk_init.height = 0 ∧
    (∃ b s1, stk_push (Stack.mk (fun _ => val_i32 5) 4096) (val_i32 9) = some (b, s1) ∧
      0 ≤ s1.height ∧ s1.height ≤ STACK_CAP) ∧
    (∃ o s1, stk_pop (Stack.mk (fun _ => val_i32 5) 4096) = some (o, s1) ∧
      0 ≤ s1.height ∧ s1.height ≤ STACK_CAP) ∧
    (∃ s2, run_ops stk_init [.pop, .push (val_i32 1), .pop, .pop] = some s2 ∧
      0 ≤ s2.height ∧ s2.height ≤ STACK_CAP) :=
  ⟨by decide, by decide,
    height_invariant (Stack.mk (fun _ => val_i32 5) 4096) (by decide) (by decide) (val_i32 9)
      [.pop, .push (val_i32 1), .pop, .pop]⟩

/-- C14 (draining terminates): on a stack of height `h` with
`0 ≤ h ≤ STACK_CAP`, the first `h` calls of `stk_pop` each return `has = true`
and the next one returns the empty indicator (`has = false`), which it keeps
doing; the loop of `main` that pops until the empty indicator runs its body
exactly `h` times and stops, whatever fuel above `h` it is given. -/
theorem drain_terminates (s : Stack) (h0 : 0 ≤ s.height) (h1 : s.height ≤ STACK_CAP) :
    ∃ os s1, pop_n s s.height.toNat = some (os, s1) ∧
      os.length = s.height.toNat ∧ (∀ o ∈ os, o.has = true) ∧
      pop_n s (s.height.toNat + 1) = some (os ++ [NONE], s1) ∧ NONE.has = false ∧
      stk_pop s1 = some (NONE, s1) ∧
      ∀ fuel, s.height.toNat < fuel →
        pop_until_empty fuel s = some (some (s.height.toNat, s1)) := by
  obtain ⟨os, s1, hpops, hlen, hhas, hz, _, hmore, hloop⟩ :=
    drain_steps s.height.toNat s (by omega) h1
  exact ⟨os, s1, hpops, hlen, hhas, hmore, rfl, stk_pop_of_empty s1 hz, hloop⟩

theorem drain_terminates_witness :
    0 ≤ (Stack.mk (fun i => val_i32 i.val) 3).height ∧
    (Stack.mk (fun i => val_i32 i.val) 3).height ≤ (STACK_CAP : Int) ∧
    ∃ os s1, pop_n (Stack.mk (fun i => val_i32 i.val) 3) 3 = some (os, s1) ∧
      os.length = 3 ∧ (∀ o ∈ os, o.has = true) ∧
      pop_n (Stack.mk (fun i => val_i32 i.val) 3) (3 + 1) = some (os ++ [NONE], s1) ∧
      NONE.has = false ∧
      stk_pop s1 = some (NONE, s1) ∧
      ∀ fuel, 3 < fuel →
        pop_until_empty fuel (Stack.mk (fun i => val_i32 i.val) 3) = some (some (3, s1)) :=
  ⟨by decide, by decide,
    drain_terminates (Stack.mk (fun i => val_i32 i.val) 3) (by decide) (by decide)⟩

/-- C17 (push/pop round trip): on a stack with `0 ≤ height < STACK_CAP`,
`stk_push s v` succeeds and `stk_pop` right after it returns exactly `v`; the
height and all slots below it (the live elements) are those of `s`, and the
element array differs from that of `s` only in the slot at index `height`,
which now holds `v`. -/
theorem push_pop_round_trip (s : Stack) (v : Value) (h0 : 0 ≤ s.height)
    (h1 : s.height < STACK_CAP) :
    ∃ s1 s2, stk_push s v = some (true, s1) ∧ stk_pop s1 = some (SOME v, s2) ∧
      s2.height = s.height ∧
      (∀ i : Fin STACK_CAP, (i.val : Int) < s.height → s2.elements i = s.elements i) ∧
      s2.live = s.live ∧
      s2.elements = Function.update s.elements ⟨s.height.toNat, by omega⟩ v ∧
      (∀ i : Fin STACK_CAP, (i.val : Int) ≠ s.height → s2.elements i = s.elements i) := by
  obtain ⟨s1, hpush, hh1, hl1⟩ := live_push s v h0 h1
  obtain ⟨s2, hpop, hh2, hl2, he2⟩ := live_pop s1 s.live v (by omega) hl1
  have hs1 := stk_push_of_lt s v h0 h1
  rw [hpush] at hs1
  have hs1e : s1.elements = Function.update s.elements ⟨s.height.toNat, by omega⟩ v := by
    have := congrArg (fun r => r.map (fun p => p.2.elements)) hs1
    simpa using this
  have hne : ∀ i : Fin STACK_CAP, (i.val : Int) ≠ s.height → s2.elements i = s.elements i := by
    intro i hi
    rw [he2, hs1e]
    apply Function.update_noteq
    intro hEq
    apply hi
    have := congrArg Fin.val hEq
    simp only at this
    omega
  refine ⟨s1, s2, hpush, hpop, by omega, ?_, hl2, he2.trans hs1e, hne⟩
  intro i hi
  exact hne i (by omega)

theorem push_pop_round_trip_witness :
    0 ≤ (Stack.mk (fun i => val_i32 i.val) 3).height ∧
    (Stack.mk (fun i => val_i32 i.val) 3).height < (STACK_CAP : Int) ∧
    ∃ s1 s2, stk_push (Stack.mk (fun i => val_i32 i.val) 3) (val_i32 99) = some (true, s1) ∧
      stk_pop s1 = some (SOME (val_i32 99), s2) ∧
      s2.height = 3 ∧
      (∀ i : Fin STACK_CAP, (i.val : Int) < 3 → s2.elements i = val_i32 i.val) ∧
      s2.live = (Stack.mk (fun i => val_i32 i.val) 3).live ∧
      s2.elements = Function.update (fun i => val_i32 i.val) ⟨3, by decide⟩ (val_i32 99) ∧
      (∀ i : Fin STACK_CAP, (i.val : Int) ≠ 3 → s2.elements i = val_i32 i.val) :=
  ⟨by decide, by decide,
    push_pop_round_trip (Stack.mk (fun i => val_i32 i.val) 3) (val_i32 99) (by decide)
      (by decide)⟩

/-- C18 (accesses in bounds): on a stack with `0 ≤ height ≤ STACK_CAP`, the
index that `stk_push` writes (when it does not reject) lies in
`[0, STACK_CAP)` and is where the value ends up; the index that `stk_pop`
reads (when it does not return empty) lies in `[0, height)`, below the old
height, and is the slot whose value is returned; so neither call leaves the
array (the result `none` is exactly an index outside it). -/
theorem accesses_in_bounds (s : Stack) (v : Value) (h0 : 0 ≤ s.height)
    (h1 : s.height ≤ STACK_CAP) :
    (∀ i, stk_push_index s = some i →
      0 ≤ i ∧ i < STACK_CAP ∧ ∃ s1, stk_push s v = some (true, s1) ∧ s1.slot i.toNat = v) ∧
    (∀ i, stk_pop_index s = some i →
      0 ≤ i ∧ i < s.height ∧ i < STACK_CAP ∧
        ∃ s1, stk_pop s = some (SOME (s.slot i.toNat), s1)) ∧
    (stk_push_index s = none → stk_push s v = some (false, s)) ∧
    (stk_pop_index s = none → stk_pop s = some (NONE, s)) ∧
    stk_push s v ≠ none ∧ stk_pop s ≠ none := by
  refine ⟨?_, ?_, ?_, ?_, ?_, ?_⟩
  · intro i hi
    unfold stk_push_index at hi
    split at hi
    · exact absurd hi (by simp)
    · have hi1 : s.height = i := by simpa using hi
      have hlt : s.height < STACK_CAP := by omega
      refine ⟨by omega, by omega, _, stk_push_of_lt s v h0 hlt, ?_⟩
      rw [← hi1, slot_update, if_pos rfl]
  · intro i hi
    unfold stk_pop_index at hi
    split at hi
    · exact absurd hi (by simp)
    · have hi1 : s.height - 1 = i := by simpa using hi
      have hpos : 0 < s.height := by omega
      refine ⟨by omega, by omega, by omega,
        { elements := s.elements, height := s.height - 1 }, ?_⟩
      rw [stk_pop_of_pos s hpos h1, ← hi1, slot_of_lt s _ (by omega)]
  · intro hi
    unfold stk_push_index at hi
    split at hi
    · exact stk_push_of_full s v (by assumption)
    · exact absurd hi (by simp)
  · intro hi
    unfold stk_pop_index at hi
    split at hi
    · exact stk_pop_of_empty s (by assumption)
    · exact absurd hi (by simp)
  · obtain ⟨b, s1, hpush, _, _⟩ := height_after_push s v h0 h1
    rw [hpush]
    simp
  · obtain ⟨o, s1, hpop, _, _⟩ := height_after_pop s h0 h1
    rw [hpop]
    simp

theorem accesses_in_bounds_witness :
    0 ≤ (Stack.mk (fun i => val_i32 i.val) 3).height ∧
    (Stack.mk (fun i => val_i32 i.val) 3).height ≤ (STACK_CAP : Int) ∧
    (∀ i, stk_push_index (Stack.mk (fun i => val_i32 i.val) 3) = some i →
      0 ≤ i ∧ i < STACK_CAP ∧
        ∃ s1, stk_push (Stack.mk (fun i => val_i32 i.val) 3) (val_i32 99) = some (true, s1) ∧
          s1.slot i.toNat = val_i32 99) ∧
    (∀ i, stk_pop_index (Stack.mk (fun i => val_i32 i.val) 3) = some i →
      0 ≤ i ∧ i < 3 ∧ i < STACK_CAP ∧
        ∃ s1, stk_pop (Stack.mk (fun i => val_i32 i.val) 3) =
          some (SOME ((Stack.mk (fun i => val_i32 i.val) 3).slot i.toNat), s1)) ∧
    (stk_push_index (Stack.mk (fun i => val_i32 i.val) 3) = none →
      stk_push (Stack.mk (fun i => val_i32 i.val) 3) (val_i32 99) =
        some (false, Stack.mk (fun i => val_i32 i.val) 3)) ∧
    (stk_pop_index (Stack.mk (fun i => val_i32 i.val) 3) = none →
      stk_pop (Stack.mk (fun i => val_i32 i.val) 3) =
        some (NONE, Stack.mk (fun i => val_i32 i.val) 3)) ∧
    stk_push (Stack.mk (fun i => val_i32 i.val) 3) (val_i32 99) ≠ none ∧
    stk_pop (Stack.mk (fun i => val_i32 i.val) 3) ≠ none :=
  ⟨by decide, by decide,
    accesses_in_bounds (Stack.mk (fun i => val_i32 i.val) 3) (val_i32 99) (by decide)
      (by decide)⟩

/-! ## Theorems: accessors, dispatch, measured length -/

/-- The three ways `str_from_snprintf` can end; a failed assertion is not
among them. -/
theorem str_from_snprintf_endings (args : FmtArgs) (h : Heap) :
    (INT_MAX < (args.text.length : Int) + 1 ∧ str_from_snprintf args h = .ub) ∨
    (h.avail < args.text.length + 1 ∧ str_from_snprintf args h = .exit_failure) ∨
    ∃ s h1, str_from_snprintf args h = .ret s h1 := by
  by_cases hint : INT_MAX < (args.text.length : Int) + 1
  · left
    refine ⟨hint, ?_⟩
    unfold str_from_snprintf
    simp only [vsnprintf, if_true, Outcome.and_then]
    rw [if_pos hint]
  · by_cases hfit : args.text.length + 1 ≤ h.avail
    · right
      right
      exact ⟨_, _, str_from_snprintf_fits args h (by omega) hfit⟩
    · right
      left
      refine ⟨by omega, ?_⟩
      have htn : ((args.text.length : Int) + 1).toNat = args.text.length + 1 := by omega
      unfold str_from_snprintf
      simp only [vsnprintf, if_true, Outcome.and_then]
      rw [if_neg hint, str_alloc_exhausted _ h (by omega) (by rw [htn]; omega)]

theorem str_from_snprintf_no_assert (args : FmtArgs) (h : Heap) :
    str_from_snprintf args h ≠ .assert_fail := by
  rcases str_from_snprintf_endings args h with ⟨_, hr⟩ | ⟨_, hr⟩ | ⟨s, h1, hr⟩ <;>
    rw [hr] <;> simp

/-- The measure pass of `str_from_snprintf` and what it hands to `str_alloc`. -/
theorem str_from_snprintf_measure (args : FmtArgs) (h : Heap)
    (hint : (args.text.length : Int) + 1 ≤ INT_MAX) :
    vsnprintf NULL 0 args h = .ret (args.text.length : Int) h ∧
    str_from_snprintf args h =
      (str_alloc ((args.text.length : Int) + 1) h).and_then fun target h2 =>
        (str_data target h2).and_then fun dst h3 =>
          (str_len target h3).and_then fun size h4 =>
            (vsnprintf dst size.toNat args h4).and_then fun _ h5 =>
              .ret target h5 := by
  refine ⟨by simp [vsnprintf], ?_⟩
  unfold str_from_snprintf
  simp only [vsnprintf, if_true, Outcome.and_then]
  rw [if_neg (by omega)]

/-! ### Claims on accessors, dispatch and the measured length -/

/-- C12 (accessor contracts): for every string handle `s`, `str_data s`
returns the stored buffer exactly when `s.bytes` is non-null and `s.len > 0`,
and fails an assertion otherwise; `str_len s` returns the stored length
exactly when `s.len > 0`, and fails an assertion otherwise; both fail on the
dead state (null buffer, zero length). Neither touches the heap. -/
theorem accessor_contracts (s : Str) (h : Heap) :
    (str_data s h = .ret s.ref.bytes h ↔ (s.ref.bytes ≠ NULL ∧ 0 < s.ref.len)) ∧
    (str_data s h = .assert_fail ↔ ¬ (s.ref.bytes ≠ NULL ∧ 0 < s.ref.len)) ∧
    (str_len s h = .ret s.ref.len h ↔ 0 < s.ref.len) ∧
    (str_len s h = .assert_fail ↔ ¬ 0 < s.ref.len) ∧
    str_data { ref := { bytes := NULL, len := 0 } } h = .assert_fail ∧
    str_len { ref := { bytes := NULL, len := 0 } } h = .assert_fail := by
  refine ⟨?_, ?_, ?_, ?_, by simp [str_data], by simp [str_len]⟩
  · unfold str_data
    by_cases hb : s.ref.bytes = NULL
    · simp [hb]
    · by_cases hl : 0 < s.ref.len
      · simp [hb, hl]
      · simp [hb, hl]
  · unfold str_data
    by_cases hb : s.ref.bytes = NULL
    · simp [hb]
    · by_cases hl : 0 < s.ref.len
      · simp [hb, hl]
      · simp [hb, hl]
  · unfold str_len
    by_cases hl : 0 < s.ref.len
    · simp [hl]
    · simp [hl]
  · unfold str_len
    by_cases hl : 0 < s.ref.len
    · simp [hl]
    · simp [hl]

/-- C15 (exhaustive dispatch): for every 32-bit signed `x` and every `float`
pattern `y`, `val_i32 x` has tag `VAL_I32` and payload `x`, `val_f32 y` has tag
`VAL_F32` and payload `y`; `val_to_str` takes the `str_from_i64` branch on the
first and the `str_from_f64` branch on the second and never fails an
assertion on either; for an arbitrary value `v`, `val_to_str v` fails an
assertion exactly when the tag of `v` is neither `VAL_I32` nor `VAL_F32`. -/
theorem dispatch_exhaustive (x : Int) (hlo : -2 ^ 31 ≤ x) (hhi : x < 2 ^ 31) (y : Nat)
    (hy : y < 2 ^ 32) (v : Value) (h : Heap) :
    (val_i32 x).type = VAL_I32 ∧ (val_i32 x).get_i32 = x ∧
    (val_f32 y).type = VAL_F32 ∧ (val_f32 y).bits = y ∧
    val_to_str (val_i32 x) h = str_from_i64 x h ∧
    val_to_str (val_f32 y) h = str_from_f64 (f32_to_f64 y) h ∧
    val_to_str (val_i32 x) h ≠ .assert_fail ∧
    val_to_str (val_f32 y) h ≠ .assert_fail ∧
    (val_to_str v h = .assert_fail ↔ (v.type ≠ VAL_I32 ∧ v.type ≠ VAL_F32)) := by
  have hget := get_i32_val_i32 x hlo hhi
  have hbits : (val_f32 y).bits = y := by
    show y % 2 ^ 32 = y
    exact Nat.mod_eq_of_lt hy
  have hi : val_to_str (val_i32 x) h = str_from_i64 x h := by
    have htag : (val_i32 x).type = VAL_I32 := rfl
    unfold val_to_str
    rw [if_pos htag, hget]
  have hf : val_to_str (val_f32 y) h = str_from_f64 (f32_to_f64 y) h := by
    have htag0 : ¬ (val_f32 y).type = VAL_I32 := (by decide : ¬ VAL_F32 = VAL_I32)
    have htag1 : (val_f32 y).type = VAL_F32 := rfl
    unfold val_to_str
    rw [if_neg htag0, if_pos htag1, hbits]
  refine ⟨rfl, hget, rfl, hbits, hi, hf, ?_, ?_, ?_⟩
  · rw [hi]
    exact str_from_snprintf_no_assert _ h
  · rw [hf]
    exact str_from_snprintf_no_assert _ h
  · unfold val_to_str
    by_cases h0 : v.type = VAL_I32
    · simp only [if_pos h0, h0, ne_eq, not_true_eq_false, false_and, iff_false]
      exact str_from_snprintf_no_assert _ h
    · by_cases h1 : v.type = VAL_F32
      · simp only [if_neg h0, if_pos h1, h1, ne_eq, not_true_eq_false, and_false, iff_false]
        exact str_from_snprintf_no_assert _ h
      · simp [h0, h1]

theorem dispatch_exhaustive_witness :
    (-2 ^ 31 : Int) ≤ -32 ∧ (-32 : Int) < 2 ^ 31 ∧ F32_345_75 < 2 ^ 32 ∧
    (val_i32 (-32)).type = VAL_I32 ∧ (val_i32 (-32)).get_i32 = -32 ∧
    (val_f32 F32_345_75).type = VAL_F32 ∧ (val_f32 F32_345_75).bits = F32_345_75 ∧
    val_to_str (val_i32 (-32)) (Heap.mk [] 16) = str_from_i64 (-32) (Heap.mk [] 16) ∧
    val_to_str (val_f32 F32_345_75) (Heap.mk [] 16) =
      str_from_f64 (f32_to_f64 F32_345_75) (Heap.mk [] 16) ∧
    val_to_str (val_i32 (-32)) (Heap.mk [] 16) ≠ .assert_fail ∧
    val_to_str (val_f32 F32_345_75) (Heap.mk [] 16) ≠ .assert_fail ∧
    (val_to_str (Value.mk 2 0) (Heap.mk [] 16) = .assert_fail ↔
      ((Value.mk 2 0).type ≠ VAL_I32 ∧ (Value.mk 2 0).type ≠ VAL_F32)) :=
  ⟨by decide, by decide, by decide,
    dispatch_exhaustive (-32) (by decide) (by decide) F32_345_75 (by decide) (Value.mk 2 0)
      (Heap.mk [] 16)⟩

/-- C19 (measured length): for every 64-bit signed `x`, the measure pass of
`str_from_snprintf` for `str_from_i64 x` returns the length of the `%ld`
text, and the buffer length computed from it (that length plus one) is between
2 and 21, between 2 and 12 when `x` is in 32-bit range (where `val_to_str` on
`val_i32 x` is this very call); it does not exceed `INT_MAX`, it is what
`str_alloc` receives, and `str_alloc` does not fail its assertion `len > 0`. -/
theorem measured_length_bounds (x : Int) (hlo : -2 ^ 63 ≤ x) (hhi : x < 2 ^ 63) (h : Heap) :
    vsnprintf NULL 0 (.ld x) h = .ret ((fmt_ld x).length : Int) h ∧
    2 ≤ ((fmt_ld x).length : Int) + 1 ∧ ((fmt_ld x).length : Int) + 1 ≤ 21 ∧
    (-2 ^ 31 ≤ x → x < 2 ^ 31 →
      ((fmt_ld x).length : Int) + 1 ≤ 12 ∧
        val_to_str (val_i32 x) h = str_from_i64 x h) ∧
    ((fmt_ld x).length : Int) + 1 ≤ INT_MAX ∧
    str_from_i64 x h =
      ((str_alloc (((fmt_ld x).length : Int) + 1) h).and_then fun target h2 =>
        (str_data target h2).and_then fun dst h3 =>
          (str_len target h3).and_then fun size h4 =>
            (vsnprintf dst size.toNat (.ld x) h4).and_then fun _ h5 =>
              .ret target h5) ∧
    str_alloc (((fmt_ld x).length : Int) + 1) h ≠ .assert_fail ∧
    str_from_i64 x h ≠ .assert_fail ∧ str_from_i64 x h ≠ .ub := by
  have hpos := fmt_ld_length_pos x
  have hlen := fmt_ld_length_i64 x hlo hhi
  have htext : (FmtArgs.ld x).text = fmt_ld x := rfl
  have hint : ((fmt_ld x).length : Int) + 1 ≤ INT_MAX := by
    unfold INT_MAX
    omega
  have hm := str_from_snprintf_measure (.ld x) h (by rw [htext]; exact hint)
  rw [htext] at hm
  refine ⟨hm.1, by omega, by omega, ?_, hint, hm.2, ?_,
    str_from_snprintf_no_assert _ h, ?_⟩
  · intro h32lo h32hi
    have h32 := fmt_ld_length_i32 x h32lo h32hi
    refine ⟨by omega, ?_⟩
    have htag : (val_i32 x).type = VAL_I32 := rfl
    unfold val_to_str
    rw [if_pos htag, get_i32_val_i32 x h32lo h32hi]
  · by_cases hfit : (((fmt_ld x).length : Int) + 1).toNat ≤ h.avail
    · rw [str_alloc_fits _ h (by omega) hfit]
      simp
    · rw [str_alloc_exhausted _ h (by omega) (by omega)]
      simp
  · rcases str_from_snprintf_endings (.ld x) h with ⟨hbig, _⟩ | ⟨_, hr⟩ | ⟨s, h1, hr⟩
    · rw [htext] at hbig
      omega
    · show str_from_snprintf (.ld x) h ≠ .ub
      rw [hr]
      simp
    · show str_from_snprintf (.ld x) h ≠ .ub
      rw [hr]
      simp

theorem measured_length_bounds_witness :
    (-2 ^ 63 : Int) ≤ -9223372036854775808 ∧ (-9223372036854775808 : Int) < 2 ^ 63 ∧
    vsnprintf NULL 0 (.ld (-9223372036854775808)) (Heap.mk [] 64) =
      .ret ((fmt_ld (-9223372036854775808)).length : Int) (Heap.mk [] 64) ∧
    2 ≤ ((fmt_ld (-9223372036854775808)).length : Int) + 1 ∧
    ((fmt_ld (-9223372036854775808)).length : Int) + 1 ≤ 21 ∧
    (-2 ^ 31 ≤ (-9223372036854775808 : Int) → (-9223372036854775808 : Int) < 2 ^ 31 →
      ((fmt_ld (-9223372036854775808)).length : Int) + 1 ≤ 12 ∧
        val_to_str (val_i32 (-9223372036854775808)) (Heap.mk [] 64) =
          str_from_i64 (-9223372036854775808) (Heap.mk [] 64)) ∧
    ((fmt_ld (-9223372036854775808)).length : Int) + 1 ≤ INT_MAX ∧
    str_from_i64 (-9223372036854775808) (Heap.mk [] 64) =
      ((str_alloc (((fmt_ld (-9223372036854775808)).length : Int) + 1)
          (Heap.mk [] 64)).and_then fun target h2 =>
        (str_data target h2).and_then fun dst h3 =>
          (str_len target h3).and_then fun size h4 =>
            (vsnprintf dst size.toNat (.ld (-9223372036854775808)) h4).and_then fun _ h5 =>
              .ret target h5) ∧
    str_alloc (((fmt_ld (-9223372036854775808)).length : Int) + 1) (Heap.mk [] 64) ≠
      .assert_fail ∧
    str_from_i64 (-9223372036854775808) (Heap.mk [] 64) ≠ .assert_fail ∧
    str_from_i64 (-9223372036854775808) (Heap.mk [] 64) ≠ .ub :=
  ⟨by decide, by decide,
    measured_length_bounds (-9223372036854775808) (by decide) (by decide) (Heap.mk [] 64)⟩

/-! ## Theorems: the demonstration flow of main.c -/

theorem free_last (bs : List Block) (cells : List (Option Nat)) (a : Nat) :
    free (bs.length + 1) { blocks := bs ++ [{ live := true, cells := cells }], avail := a } =
      some { blocks := bs ++ [{ live := false, cells := cells }],
             avail := a + cells.length } := by
  unfold free
  simp [NULL]

theorem is_live_last (bs : List Block) (b : Block) (a : Nat) :
    Heap.is_live { blocks := bs ++ [b], avail := a } (bs.length + 1) = b.live := by
  unfold Heap.is_live
  rw [block_last]

/-- One pass through the `has` branch of the loop of `main`, for a value
whose text is `t` and fits: the text is written as a line, and the string is
made, read and released in this order, in a fresh block that ends released. -/
theorem main_body_fits (val : Value) (args : FmtArgs) (t : List Nat) (con : Console)
    (h : Heap) (hv : val_to_str val h = str_from_snprintf args h) (ht : args.text = t)
    (hnz : ∀ c ∈ t, c ≠ 0) (hint : (t.length : Int) + 1 ≤ INT_MAX)
    (hfit : t.length + 1 ≤ h.avail) :
    main_body val con h =
      .ret { lines := con.lines ++ [t],
             calls := con.calls ++
               [.made { ref := { bytes := h.blocks.length + 1, len := (t.length : Int) + 1 } },
                .data { ref := { bytes := h.blocks.length + 1, len := (t.length : Int) + 1 } }
                  true,
                .freed { ref := { bytes := h.blocks.length + 1, len := (t.length : Int) + 1 } }
                  true] }
        { blocks := h.blocks ++ [{ live := false, cells := t.map some ++ [some 0] }],
          avail := h.avail } := by
  subst ht
  have hrun := str_from_snprintf_fits args h hint hfit
  have hpos : (args.text.length : Int) + 1 > 0 := by omega
  unfold main_body call_val_to_str call_str_data call_puts call_str_free
  rw [hv, hrun]
  simp only [Outcome.and_then, str_data, NULL, Nat.add_one_ne_zero, if_false, hpos,
    not_true_eq_false, puts, cstring_last _ _ _ hnz, str_free, str_free_body, mem_free,
    free_last, is_live_last, List.append_assoc, List.singleton_append, List.cons_append,
    List.nil_append]
  have hav : h.avail - (args.text.length + 1) + (args.text.map some ++ [some 0]).length =
      h.avail := by
    simp only [List.length_append, List.length_map, List.length_singleton]
    omega
  rw [hav]

theorem main_loop_step (fuel : Nat) (s : Stack) (l : List Value) (v : Value)
    (con con1 : Console) (h h1 : Heap) (hcap : s.height ≤ STACK_CAP)
    (hl : s.live = l ++ [v]) (hbody : main_body v con h = .ret con1 h1) :
    ∃ s1, s1.height = s.height - 1 ∧ s1.live = l ∧
      main_loop (fuel + 1) s con h = main_loop fuel s1 con1 h1 := by
  obtain ⟨s1, hpop, hh, hl1, _⟩ := live_pop s l v hcap hl
  refine ⟨s1, hh, hl1, ?_⟩
  rw [main_loop]
  simp only [hpop, SOME, if_true, hbody]

theorem main_loop_stop (fuel : Nat) (s : Stack) (con : Console) (h : Heap)
    (hz : s.height = 0) :
    main_loop (fuel + 1) s con h = some (.ret con h) := by
  rw [main_loop]
  simp [stk_pop_of_empty s hz, NONE]

theorem demo_texts :
    (FmtArgs.f (f32_to_f64 (val_f32 F32_345_75).bits)).text =
      [51, 52, 53, 46, 55, 53, 48, 48, 48, 48] ∧
    (FmtArgs.ld (val_i32 (-32)).get_i32).text = [45, 51, 50] ∧
    (FmtArgs.ld (val_i32 87).get_i32).text = [56, 55] := by
  decide

/-- The whole run of `main` when the allocator can serve 11 bytes: the lines
written, the calls on owned strings, and the heap it leaves. -/
theorem main_run (fuel : Nat) (hfuel : 4 ≤ fuel) (h : Heap) (hav : 11 ≤ h.avail) :
    main fuel h =
      some (.ret (0,
        { lines := [[51, 52, 53, 46, 55, 53, 48, 48, 48, 48], [45, 51, 50], [56, 55]],
          calls :=
            [.made { ref := { bytes := h.blocks.length + 1, len := 11 } },
             .data { ref := { bytes := h.blocks.length + 1, len := 11 } } true,
             .freed { ref := { bytes := h.blocks.length + 1, len := 11 } } true,
             .made { ref := { bytes := h.blocks.length + 2, len := 4 } },
             .data { ref := { bytes := h.blocks.length + 2, len := 4 } } true,
             .freed { ref := { bytes := h.blocks.length + 2, len := 4 } } true,
             .made { ref := { bytes := h.blocks.length + 3, len := 3 } },
             .data { ref := { bytes := h.blocks.length + 3, len := 3 } } true,
             .freed { ref := { bytes := h.blocks.length + 3, len := 3 } } true] })
        { blocks := h.blocks ++
            [{ live := false,
               cells := [some 51, some 52, some 53, some 46, some 55, some 53, some 48,
                 some 48, some 48, some 48, some 0] },
             { live := false, cells := [some 45, some 51, some 50, some 0] },
             { live := false, cells := [some 56, some 55, some 0] }],
          avail := h.avail }) := by
  obtain ⟨k, rfl⟩ : ∃ k, fuel = k + 4 := ⟨fuel - 4, by omega⟩
  have hz : stk_init.height = 0 := rfl
  have hc : (STACK_CAP : Int) = 4096 := rfl
  have hl0 : stk_init.live = [] := rfl
  obtain ⟨s1, hp1, hh1, hl1⟩ := live_push stk_init (val_i32 87) (by omega) (by omega)
  obtain ⟨s2, hp2, hh2, hl2⟩ := live_push s1 (val_i32 (-32)) (by omega) (by omega)
  obtain ⟨s3, hp3, hh3, hl3⟩ := live_push s2 (val_f32 F32_345_75) (by omega) (by omega)
  rw [hl0, List.nil_append] at hl1
  rw [hl1] at hl2
  rw [hl2] at hl3
  have hv1 : ∀ g : Heap, val_to_str (val_f32 F32_345_75) g =
      str_from_snprintf (.f (f32_to_f64 (val_f32 F32_345_75).bits)) g := fun _ => rfl
  have hv2 : ∀ g : Heap, val_to_str (val_i32 (-32)) g =
      str_from_snprintf (.ld (val_i32 (-32)).get_i32) g := fun _ => rfl
  have hv3 : ∀ g : Heap, val_to_str (val_i32 87) g =
      str_from_snprintf (.ld (val_i32 87).get_i32) g := fun _ => rfl
  have hb1 : main_body (val_f32 F32_345_75) { lines := [], calls := [] } h =
      .ret
        { lines := [[51, 52, 53, 46, 55, 53, 48, 48, 48, 48]],
          calls :=
            [.made { ref := { bytes := h.blocks.length + 1, len := 11 } },
             .data { ref := { bytes := h.blocks.length + 1, len := 11 } } true,
             .freed { ref := { bytes := h.blocks.length + 1, len := 11 } } true] }
        { blocks := h.blocks ++
            [{ live := false,
               cells := [some 51, some 52, some 53, some 46, some 55, some 53, some 48,
                 some 48, some 48, some 48, some 0] }],
          avail := h.avail } := by
    have hb := main_body_fits (val_f32 F32_345_75) _ _ { lines := [], calls := [] } h
      (hv1 h) demo_texts.1 (by decide) (by decide)
      (by simp only [List.length_cons, List.length_nil]; omega)
    simpa using hb
  obtain ⟨t2, ht2h, ht2l, hstep1⟩ :=
    main_loop_step (k + 3) s3 [val_i32 87, val_i32 (-32)] (val_f32 F32_345_75) _ _ h _
      (by omega) hl3 hb1
  have hb2 : main_body (val_i32 (-32))
        { lines := [[51, 52, 53, 46, 55, 53, 48, 48, 48, 48]],
          calls :=
            [.made { ref := { bytes := h.blocks.length + 1, len := 11 } },
             .data { ref := { bytes := h.blocks.length + 1, len := 11 } } true,
             .freed { ref := { bytes := h.blocks.length + 1, len := 11 } } true] }
        { blocks := h.blocks ++
            [{ live := false,
               cells := [some 51, some 52, some 53, some 46, some 55, some 53, some 48,
                 some 48, some 48, some 48, some 0] }],
          avail := h.avail } =
      .ret
        { lines := [[51, 52, 53, 46, 55, 53, 48, 48, 48, 48], [45, 51, 50]],
          calls :=
            [.made { ref := { bytes := h.blocks.length + 1, len := 11 } },
             .data { ref := { bytes := h.blocks.length + 1, len := 11 } } true,
             .freed { ref := { bytes := h.blocks.length + 1, len := 11 } } true,
             .made { ref := { bytes := h.blocks.length + 2, len := 4 } },
             .data { ref := { bytes := h.blocks.length + 2, len := 4 } } true,
             .freed { ref := { bytes := h.blocks.length + 2, len := 4 } } true] }
        { blocks := h.blocks ++
            [{ live := false,
               cells := [some 51, some 52, some 53, some 46, some 55, some 53, some 48,
                 some 48, some 48, some 48, some 0] },
             { live := false, cells := [some 45, some 51, some 50, some 0] }],
          avail := h.avail } := by
    have hb := main_body_fits (val_i32 (-32)) _ _
      { lines := [[51, 52, 53, 46, 55, 53, 48, 48, 48, 48]],
        calls :=
          [.made { ref := { bytes := h.blocks.length + 1, len := 11 } },
           .data { ref := { bytes := h.blocks.length + 1, len := 11 } } true,
           .freed { ref := { bytes := h.blocks.length + 1, len := 11 } } true] }
      { blocks := h.blocks ++
          [{ live := false,
             cells := [some 51, some 52, some 53, some 46, some 55, some 53, some 48,
               some 48, some 48, some 48, some 0] }],
        avail := h.avail }
      (hv2 _) demo_texts.2.1 (by decide) (by decide)
      (by simp only [List.length_cons, List.length_nil]; omega)
    simpa using hb
  obtain ⟨t1, ht1h, ht1l, hstep2⟩ :=
    main_loop_step (k + 2) t2 [val_i32 87] (val_i32 (-32)) _ _ _ _ (by omega) ht2l hb2
  have hb3 : main_body (val_i32 87)
        { lines := [[51, 52, 53, 46, 55, 53, 48, 48, 48, 48], [45, 51, 50]],
          calls :=
            [.made { ref := { bytes := h.blocks.length + 1, len := 11 } },
             .data { ref := { bytes := h.blocks.length + 1, len := 11 } } true,
             .freed { ref := { bytes := h.blocks.length + 1, len := 11 } } true,
             .made { ref := { bytes := h.blocks.length + 2, len := 4 } },
             .data { ref := { bytes := h.blocks.length + 2, len := 4 } } true,
             .freed { ref := { bytes := h.blocks.length + 2, len := 4 } } true] }
        { blocks := h.blocks ++
            [{ live := false,
               cells := [some 51, some 52, some 53, some 46, some 55, some 53, some 48,
                 some 48, some 48, some 48, some 0] },
             { live := false, cells := [some 45, some 51, some 50, some 0] }],
          avail := h.avail } =
      .ret
        { lines := [[51, 52, 53, 46, 55, 53, 48, 48, 48, 48], [45, 51, 50], [56, 55]],
          calls :=
            [.made { ref := { bytes := h.blocks.length + 1, len := 11 } },
             .data { ref := { bytes := h.blocks.length + 1, len := 11 } } true,
             .freed { ref := { bytes := h.blocks.length + 1, len := 11 } } true,
             .made { ref := { bytes := h.blocks.length + 2, len := 4 } },
             .data { ref := { bytes := h.blocks.length + 2, len := 4 } } true,
             .freed { ref := { bytes := h.blocks.length + 2, len := 4 } } true,
             .made { ref := { bytes := h.blocks.length + 3, len := 3 } },
             .data { ref := { bytes := h.blocks.length + 3, len := 3 } } true,
             .freed { ref := { bytes := h.blocks.length + 3, len := 3 } } true] }
        { blocks := h.blocks ++
            [{ live := false,
               cells := [some 51, some 52, some 53, some 46, some 55, some 53, some 48,
                 some 48, some 48, some 48, some 0] },
             { live := false, cells := [some 45, some 51, some 50, some 0] },
             { live := false, cells := [some 56, some 55, some 0] }],
          avail := h.avail } := by
    have hb := main_body_fits (val_i32 87) _ _
      { lines := [[51, 52, 53, 46, 55, 53, 48, 48, 48, 48], [45, 51, 50]],
        calls :=
          [.made { ref := { bytes := h.blocks.length + 1, len := 11 } },
           .data { ref := { bytes := h.blocks.length + 1, len := 11 } } true,
           .freed { ref := { bytes := h.blocks.length + 1, len := 11 } } true,
           .made { ref := { bytes := h.blocks.length + 2, len := 4 } },
           .data { ref := { bytes := h.blocks.length + 2, len := 4 } } true,
           .freed { ref := { bytes := h.blocks.length + 2, len := 4 } } true] }
      { blocks := h.blocks ++
          [{ live := false,
             cells := [some 51, some 52, some 53, some 46, some 55, some 53, some 48,
               some 48, some 48, some 48, some 0] },
           { live := false, cells := [some 45, some 51, some 50, some 0] }],
        avail := h.avail }
      (hv3 _) demo_texts.2.2 (by decide) (by decide)
      (by simp only [List.length_cons, List.length_nil]; omega)
    simpa using hb
  obtain ⟨t0, ht0h, _, hstep3⟩ :=
    main_loop_step (k + 1) t1 [] (val_i32 87) _ _ _ _ (by omega) ht1l hb3
  have hstop := main_loop_stop k t0
    { lines := [[51, 52, 53, 46, 55, 53, 48, 48, 48, 48], [45, 51, 50], [56, 55]],
      calls :=
        [.made { ref := { bytes := h.blocks.length + 1, len := 11 } },
         .data { ref := { bytes := h.blocks.length + 1, len := 11 } } true,
         .freed { ref := { bytes := h.blocks.length + 1, len := 11 } } true,
         .made { ref := { bytes := h.blocks.length + 2, len := 4 } },
         .data { ref := { bytes := h.blocks.length + 2, len := 4 } } true,
         .freed { ref := { bytes := h.blocks.length + 2, len := 4 } } true,
         .made { ref := { bytes := h.blocks.length + 3, len := 3 } },
         .data { ref := { bytes := h.blocks.length + 3, len := 3 } } true,
         .freed { ref := { bytes := h.blocks.length + 3, len := 3 } } true] }
    { blocks := h.blocks ++
        [{ live := false,
           cells := [some 51, some 52, some 53, some 46, some 55, some 53, some 48,
             some 48, some 48, some 48, some 0] },
         { live := false, cells := [some 45, some 51, some 50, some 0] },
         { live := false, cells := [some 56, some 55, some 0] }],
      avail := h.avail }
    (by omega)
  unfold main
  simp only [hp1, hp2, hp3]
  rw [hstep1, hstep2, hstep3, hstop]
  rfl

theorem demo_lines_text :
    ([[51, 52, 53, 46, 55, 53, 48, 48, 48, 48], [45, 51, 50], [56, 55]] : List (List Nat)) =
      ["345.750000", "-32", "87"].map (fun t => t.toList.map Char.toNat) := by
  decide

/-! ### Claims on the demonstration flow -/

/-- C11 (end-to-end demo): with the allocator able to serve 11 bytes and
fuel for four passes of the loop, `main` (which starts from `stk_init`, pushes
`val_i32 87`, `val_i32 (-32)` and `val_f32` of 345.75, then pops until the
empty indicator, converting each popped value with `val_to_str`) returns 0
after writing exactly three lines, in order `345.750000`, `-32`, `87`. -/
theorem demo_output (fuel : Nat) (hfuel : 4 ≤ fuel) (h : Heap) (hav : 11 ≤ h.avail) :
    ∃ con h1, main fuel h = some (.ret (0, con) h1) ∧
      con.lines = ["345.750000", "-32", "87"].map (fun t => t.toList.map Char.toNat) ∧
      con.lines.length = 3 := by
  exact ⟨_, _, main_run fuel hfuel h hav, demo_lines_text, rfl⟩

theorem demo_output_witness :
    4 ≤ 4 ∧ 11 ≤ (Heap.mk [] 11).avail ∧
    ∃ con h1, main 4 (Heap.mk [] 11) = some (.ret (0, con) h1) ∧
      con.lines = ["345.750000", "-32", "87"].map (fun t => t.toList.map Char.toNat) ∧
      con.lines.length = 3 :=
  ⟨by decide, by decide, demo_output 4 (by decide) (Heap.mk [] 11) (by decide)⟩

end Cattywampus
